import Mathlib

/-!
Shallow embedding of `mmengine/runner/loops.py`.

The four loop classes (`EpochBasedTrainLoop`, `IterBasedTrainLoop`,
`ValLoop`, `TestLoop`) are modelled as pure functions over an explicit
runner state.  Python exceptions are modelled by returning the mutated
state together with `Option Err`: mutations performed before the raise
persist (Python objects are mutated in place), and a raised error
short-circuits the remaining statements of every enclosing call.

External collaborators (the model, hook handlers, the evaluator) are
parameters of the configuration; the state records every observable
interaction with them (hook dispatches, log writes, evaluator calls).
-/

namespace Loops

/-- Errors that can abort a `run()` call: iterator exhaustion
(`StopIteration` from `next` on an exhausted cursor), a raising hook
handler, a raising computation unit, and Python's `ZeroDivisionError`
from `x % 0` in the validation-interval check. -/
inductive Err where
  | stopIteration
  | hookFailure (name : String)
  | modelFailure
  | zeroDivision
deriving DecidableEq

/-- One `runner.call_hook(...)` dispatch, with the keyword arguments the
source passes at that hook point. `B` is the batch type, `O` the type of
computation-unit results. -/
inductive HookCall (B O : Type) where
  | beforeTrain
  | afterTrain
  | beforeTrainEpoch
  | afterTrainEpoch
  | beforeTrainIter (batchIdx : Nat) (dataBatch : B)
  | afterTrainIter (batchIdx : Nat) (dataBatch : B) (outputs : O)
  | beforeVal
  | afterVal
  | beforeValEpoch
  | afterValEpoch
  | beforeValIter (batchIdx : Nat) (dataBatch : B)
  | afterValIter (batchIdx : Nat) (dataBatch : B) (outputs : O)
  | beforeTest
  | afterTest
  | beforeTestEpoch
  | afterTestEpoch
  | beforeTestIter (batchIdx : Nat) (dataBatch : B)
  | afterTestIter (batchIdx : Nat) (dataBatch : B) (outputs : O)
deriving DecidableEq

/-- The exact hook-point name string the source passes to `call_hook`. -/
def hookName {B O : Type} : HookCall B O → String
  | .beforeTrain => "before_train"
  | .afterTrain => "after_train"
  | .beforeTrainEpoch => "before_train_epoch"
  | .afterTrainEpoch => "after_train_epoch"
  | .beforeTrainIter _ _ => "before_train_iter"
  | .afterTrainIter _ _ _ => "after_train_iter"
  | .beforeVal => "before_val"
  | .afterVal => "after_val"
  | .beforeValEpoch => "before_val_epoch"
  | .afterValEpoch => "after_val_epoch"
  | .beforeValIter _ _ => "before_val_iter"
  | .afterValIter _ _ _ => "after_val_iter"
  | .beforeTest => "before_test"
  | .afterTest => "after_test"
  | .beforeTestEpoch => "before_test_epoch"
  | .afterTestEpoch => "after_test_epoch"
  | .beforeTestIter _ _ => "before_test_iter"
  | .afterTestIter _ _ _ => "after_test_iter"

/-- The mutable runner/context state the loops operate on.
`V` is the type of logged scalar values. -/
structure Runner (B O V : Type) where
  /-- `runner._epoch` -/
  epoch : Nat
  /-- `runner._iter` -/
  iter : Nat
  /-- `runner.cur_dataloader`, identified by the dataloader's identity. -/
  curDataloader : Option Nat
  /-- `runner.outputs` -/
  outputs : Option O
  /-- the `runner.message_hub.update_log(key, value)` records, in order -/
  messageHub : List (String × V)
  /-- record of every `runner.call_hook` dispatch, in order -/
  trace : List (HookCall B O)
  /-- the evaluator's accumulated `(data_batch, outputs)` pairs
  (`evaluator.process` calls since the last `evaluate`) -/
  evalAccum : List (B × O)
  /-- the arguments of every `evaluator.evaluate(size)` call, in order -/
  evalCalls : List Nat
  /-- `model.train()` sets it true, `model.eval()` sets it false -/
  trainingMode : Bool
deriving DecidableEq

/-- Configuration of `runner.val_loop`: its dataloader (identity, batch
list and underlying `dataset` sample count), its evaluator's finalize
function, and its `interval`. -/
structure ValCfg (B O V : Type) where
  dlId : Nat
  batches : List B
  datasetLen : Nat
  evaluate : List (B × O) → Nat → List (String × V)
  interval : Nat

/-- Configuration of a `TestLoop`: dataloader and evaluator. -/
structure TestCfg (B O V : Type) where
  dlId : Nat
  batches : List B
  datasetLen : Nat
  evaluate : List (B × O) → Nat → List (String × V)

/-- The external collaborators shared through the runner: the
computation unit (`runner.model(batch, return_loss)`), the shape of its
loss-mode result's `log_vars` mapping, the behaviour of the registered
hook handlers (`none` = the handlers return, `some e` = a handler
raises `e`), and the optional `runner.val_loop`. -/
structure Cfg (B O V : Type) where
  model : B → Bool → Except Err O
  logVars : O → List (String × V)
  hookErr : HookCall B O → Option Err
  valLoop : Option (ValCfg B O V)

/-- Configuration of an `EpochBasedTrainLoop`: its dataloader and
`max_epochs`. -/
structure EpochCfg (B : Type) where
  dlId : Nat
  batches : List B
  max_epochs : Nat

/-- Configuration of an `IterBasedTrainLoop`: its dataloader (turned
into a one-shot cursor at construction) and `max_iters`. -/
structure IterCfg (B : Type) where
  dlId : Nat
  batches : List B
  max_iters : Nat

variable {B O V : Type}

/-- Result of running a piece of loop code: the state after it, plus
`some e` when it raised `e` (mutations before the raise are kept). -/
abbrev Res (B O V : Type) := Runner B O V × Option Err

/-- Sequencing with Python exception propagation: if the first piece
raised, the rest of the enclosing body is skipped. -/
def andThen (r : Res B O V) (f : Runner B O V → Res B O V) : Res B O V :=
  match r with
  | (s, some e) => (s, some e)
  | (s, none) => f s

/-- `runner.call_hook(h)`: the dispatch is recorded, and the registered
handlers either all return (`none`) or one raises. -/
def callHook (cfg : Cfg B O V) (s : Runner B O V) (h : HookCall B O) : Res B O V :=
  ({ s with trace := s.trace ++ [h] }, cfg.hookErr h)

/-- `for key, value in items: runner.message_hub.update_log(f'{pre}/{key}', value)`
where `pre` is the regime's log-key namespace. -/
def updateLogs (pre : String) (items : List (String × V)) (s : Runner B O V) :
    Runner B O V :=
  { s with messageHub :=
      s.messageHub ++ items.map (fun kv => (pre ++ "/" ++ kv.1, kv.2)) }

namespace ValLoop

/-- `ValLoop.run_iter(idx, data_batch)`.  Note: the computation-unit
result goes into a local variable and to `evaluator.process`; it is
*not* stored on the runner. -/
def run_iter (cfg : Cfg B O V) (idx : Nat) (data_batch : B)
    (s : Runner B O V) : Res B O V :=
  andThen (callHook cfg s (.beforeValIter idx data_batch)) fun s =>
    match cfg.model data_batch false with
    | .error e => (s, some e)
    | .ok outputs =>
      let s := { s with evalAccum := s.evalAccum ++ [(data_batch, outputs)] }
      callHook cfg s (.afterValIter idx data_batch outputs)

/-- `for idx, data_batch in enumerate(self.dataloader): self.run_iter(idx, data_batch)` -/
def run_iters (cfg : Cfg B O V) : Nat → List B → Runner B O V → Res B O V
  | _, [], s => (s, none)
  | idx, b :: rest, s =>
    andThen (run_iter cfg idx b s) fun s => run_iters cfg (idx + 1) rest s

/-- `ValLoop.run()`.  The evaluator's `evaluate` receives
`len(self.dataloader.dataset)` (the sample count); per the evaluator
contract it consumes and resets the accumulated state. -/
def run (cfg : Cfg B O V) (vcfg : ValCfg B O V) (s : Runner B O V) : Res B O V :=
  let s := { s with curDataloader := some vcfg.dlId }
  andThen (callHook cfg s .beforeVal) fun s =>
    andThen (callHook cfg s .beforeValEpoch) fun s =>
      let s := { s with trainingMode := false }
      andThen (run_iters cfg 0 vcfg.batches s) fun s =>
        let metrics := vcfg.evaluate s.evalAccum vcfg.datasetLen
        let s := { s with evalCalls := s.evalCalls ++ [vcfg.datasetLen],
                          evalAccum := [] }
        let s := updateLogs "val" metrics s
        andThen (callHook cfg s .afterValEpoch) fun s =>
          callHook cfg s .afterVal

end ValLoop

namespace TestLoop

/-- `TestLoop.run_iter(idx, data_batch)`: same shape as the validation
iteration, with the `test` hook namespace; predictions are fed to the
evaluator, not stored on the runner. -/
def run_iter (cfg : Cfg B O V) (idx : Nat) (data_batch : B)
    (s : Runner B O V) : Res B O V :=
  andThen (callHook cfg s (.beforeTestIter idx data_batch)) fun s =>
    match cfg.model data_batch false with
    | .error e => (s, some e)
    | .ok predictions =>
      let s := { s with evalAccum := s.evalAccum ++ [(data_batch, predictions)] }
      callHook cfg s (.afterTestIter idx data_batch predictions)

/-- the enumeration loop of `TestLoop.run` -/
def run_iters (cfg : Cfg B O V) : Nat → List B → Runner B O V → Res B O V
  | _, [], s => (s, none)
  | idx, b :: rest, s =>
    andThen (run_iter cfg idx b s) fun s => run_iters cfg (idx + 1) rest s

/-- `TestLoop.run()` -/
def run (cfg : Cfg B O V) (tcfg : TestCfg B O V) (s : Runner B O V) : Res B O V :=
  let s := { s with curDataloader := some tcfg.dlId }
  andThen (callHook cfg s .beforeTest) fun s =>
    andThen (callHook cfg s .beforeTestEpoch) fun s =>
      let s := { s with trainingMode := false }
      andThen (run_iters cfg 0 tcfg.batches s) fun s =>
        let metrics := tcfg.evaluate s.evalAccum tcfg.datasetLen
        let s := { s with evalCalls := s.evalCalls ++ [tcfg.datasetLen],
                          evalAccum := [] }
        let s := updateLogs "test" metrics s
        andThen (callHook cfg s .afterTestEpoch) fun s =>
          callHook cfg s .afterTest

end TestLoop

namespace EpochBasedTrainLoop

/-- `self._max_iters = max_epochs * len(self.dataloader)`, precomputed
at construction. -/
def max_iters (ecfg : EpochCfg B) : Nat :=
  ecfg.max_epochs * ecfg.batches.length

/-- `EpochBasedTrainLoop.run_iter(idx, data_batch)`:
`before_train_iter`, run the model in loss mode storing
`runner.outputs`, log each `log_vars` entry under `train/<key>`,
`after_train_iter`, then `runner._iter += 1`. -/
def run_iter (cfg : Cfg B O V) (idx : Nat) (data_batch : B)
    (s : Runner B O V) : Res B O V :=
  andThen (callHook cfg s (.beforeTrainIter idx data_batch)) fun s =>
    match cfg.model data_batch true with
    | .error e => (s, some e)
    | .ok out =>
      let s := { s with outputs := some out }
      let s := updateLogs "train" (cfg.logVars out) s
      andThen (callHook cfg s (.afterTrainIter idx data_batch out)) fun s =>
        ({ s with iter := s.iter + 1 }, none)

/-- `for idx, data_batch in enumerate(self.dataloader): self.run_iter(idx, data_batch)` -/
def run_iters (cfg : Cfg B O V) : Nat → List B → Runner B O V → Res B O V
  | _, [], s => (s, none)
  | idx, b :: rest, s =>
    andThen (run_iter cfg idx b s) fun s => run_iters cfg (idx + 1) rest s

/-- `EpochBasedTrainLoop.run_epoch()`: `before_train_epoch`,
`model.train()`, the iteration loop, `after_train_epoch`, then
`runner._epoch += 1`. -/
def run_epoch (cfg : Cfg B O V) (ecfg : EpochCfg B) (s : Runner B O V) : Res B O V :=
  andThen (callHook cfg s .beforeTrainEpoch) fun s =>
    let s := { s with trainingMode := true }
    andThen (run_iters cfg 0 ecfg.batches s) fun s =>
      andThen (callHook cfg s .afterTrainEpoch) fun s =>
        ({ s with epoch := s.epoch + 1 }, none)

/-- The post-epoch validation check of `EpochBasedTrainLoop.run`:
`if runner.val_loop is not None and runner._epoch % interval == 0:
runner.val_loop.run()`.  Python's `%` raises `ZeroDivisionError` when
`interval == 0`. -/
def valCheck (cfg : Cfg B O V) (s : Runner B O V) : Res B O V :=
  match cfg.valLoop with
  | none => (s, none)
  | some vl =>
    if vl.interval = 0 then (s, some .zeroDivision)
    else if s.epoch % vl.interval = 0 then ValLoop.run cfg vl s
    else (s, none)

/-- The `while runner._epoch < max_epochs` loop of
`EpochBasedTrainLoop.run`, with fuel.  A successful `run_epoch`
increments `runner._epoch` by exactly one, so with
`fuel = max_epochs - epoch` the guard, not the fuel, decides
termination, exactly as in the source's while loop. -/
def loopFuel (cfg : Cfg B O V) (ecfg : EpochCfg B) :
    Nat → Runner B O V → Res B O V
  | 0, s => (s, none)
  | fuel + 1, s =>
    if s.epoch < ecfg.max_epochs then
      andThen (run_epoch cfg ecfg s) fun s =>
        andThen (valCheck cfg s) fun s => loopFuel cfg ecfg fuel s
    else (s, none)

/-- `EpochBasedTrainLoop.run()` -/
def run (cfg : Cfg B O V) (ecfg : EpochCfg B) (s : Runner B O V) : Res B O V :=
  let s := { s with curDataloader := some ecfg.dlId }
  andThen (callHook cfg s .beforeTrain) fun s =>
    andThen (loopFuel cfg ecfg (ecfg.max_epochs - s.epoch) s) fun s =>
      callHook cfg s .afterTrain

end EpochBasedTrainLoop

namespace IterBasedTrainLoop

/-- `IterBasedTrainLoop.run_iter(data_batch)`: both hooks receive
`batch_idx = runner._iter` (the running global counter); the increment
happens after `after_train_iter` returns. -/
def run_iter (cfg : Cfg B O V) (data_batch : B) (s : Runner B O V) : Res B O V :=
  andThen (callHook cfg s (.beforeTrainIter s.iter data_batch)) fun s =>
    match cfg.model data_batch true with
    | .error e => (s, some e)
    | .ok out =>
      let s := { s with outputs := some out }
      let s := updateLogs "train" (cfg.logVars out) s
      andThen (callHook cfg s (.afterTrainIter s.iter data_batch out)) fun s =>
        ({ s with iter := s.iter + 1 }, none)

/-- The post-iteration validation check of `IterBasedTrainLoop.run`:
`if runner.val_loop is not None and runner._iter % interval == 0:
runner.val_loop.run()`. -/
def valCheck (cfg : Cfg B O V) (s : Runner B O V) : Res B O V :=
  match cfg.valLoop with
  | none => (s, none)
  | some vl =>
    if vl.interval = 0 then (s, some .zeroDivision)
    else if s.iter % vl.interval = 0 then ValLoop.run cfg vl s
    else (s, none)

/-- The `while runner._iter < max_iters` loop of
`IterBasedTrainLoop.run`, with fuel, threading the one-shot cursor.
`next` on an exhausted cursor raises `StopIteration`.  A successful
`run_iter` increments `runner._iter` by exactly one, so with
`fuel = max_iters - iter` the guard, not the fuel, decides termination,
exactly as in the source's while loop. -/
def loopFuel (cfg : Cfg B O V) (icfg : IterCfg B) :
    Nat → List B → Runner B O V → Res B O V
  | 0, _, s => (s, none)
  | fuel + 1, cursor, s =>
    if s.iter < icfg.max_iters then
      let s := { s with trainingMode := true }
      match cursor with
      | [] => (s, some .stopIteration)
      | b :: rest =>
        andThen (run_iter cfg b s) fun s =>
          andThen (valCheck cfg s) fun s => loopFuel cfg icfg fuel rest s
    else (s, none)

/-- `IterBasedTrainLoop.run()`: one `before_train_epoch` for the whole
run (the run is one logical epoch). -/
def run (cfg : Cfg B O V) (icfg : IterCfg B) (s : Runner B O V) : Res B O V :=
  let s := { s with curDataloader := some icfg.dlId }
  andThen (callHook cfg s .beforeTrain) fun s =>
    andThen (callHook cfg s .beforeTrainEpoch) fun s =>
      andThen (loopFuel cfg icfg (icfg.max_iters - s.iter) icfg.batches s) fun s =>
        andThen (callHook cfg s .afterTrainEpoch) fun s =>
          callHook cfg s .afterTrain

end IterBasedTrainLoop

/-- The sequence of hook-point *names* dispatched so far. -/
def nameTrace (s : Runner B O V) : List String := s.trace.map hookName

@[simp] theorem andThen_ok (s : Runner B O V) (f : Runner B O V → Res B O V) :
    andThen (s, none) f = f s := rfl

@[simp] theorem andThen_err (s : Runner B O V) (e : Err)
    (f : Runner B O V → Res B O V) : andThen (s, some e) f = (s, some e) := rfl

theorem andThen_none (r : Res B O V) (f : Runner B O V → Res B O V) :
    (andThen r f).2 = none ↔ r.2 = none ∧ (f r.1).2 = none := by
  rcases r with ⟨s, e⟩
  cases e <;> simp

namespace EpochBasedTrainLoop

/-- Case analysis of `EpochBasedTrainLoop.run_iter`: the before-hook
raises, the model raises, the after-hook raises, or the iteration
completes; in each case the resulting state is explicit. -/
theorem eb_run_iter_spec (cfg : Cfg B O V) (idx : Nat) (b : B) (s : Runner B O V) :
    (∃ e, cfg.hookErr (.beforeTrainIter idx b) = some e ∧
      run_iter cfg idx b s =
        ({ s with trace := s.trace ++ [.beforeTrainIter idx b] }, some e)) ∨
    (∃ e, cfg.hookErr (.beforeTrainIter idx b) = none ∧
      cfg.model b true = .error e ∧
      run_iter cfg idx b s =
        ({ s with trace := s.trace ++ [.beforeTrainIter idx b] }, some e)) ∨
    (∃ o e, cfg.hookErr (.beforeTrainIter idx b) = none ∧
      cfg.model b true = .ok o ∧
      cfg.hookErr (.afterTrainIter idx b o) = some e ∧
      run_iter cfg idx b s =
        ({ s with
            trace := s.trace ++ [.beforeTrainIter idx b, .afterTrainIter idx b o],
            outputs := some o,
            messageHub := s.messageHub ++
              (cfg.logVars o).map (fun kv => ("train/" ++ kv.1, kv.2)) },
          some e)) ∨
    (∃ o, cfg.hookErr (.beforeTrainIter idx b) = none ∧
      cfg.model b true = .ok o ∧
      cfg.hookErr (.afterTrainIter idx b o) = none ∧
      run_iter cfg idx b s =
        ({ s with
            trace := s.trace ++ [.beforeTrainIter idx b, .afterTrainIter idx b o],
            outputs := some o,
            messageHub := s.messageHub ++
              (cfg.logVars o).map (fun kv => ("train/" ++ kv.1, kv.2)),
            iter := s.iter + 1 },
          none)) := by
  cases h1 : cfg.hookErr (.beforeTrainIter idx b) with
  | some e =>
    left
    exact ⟨e, rfl, by simp [run_iter, callHook, h1]⟩
  | none =>
    cases h2 : cfg.model b true with
    | error e =>
      right; left
      exact ⟨e, rfl, by simp [run_iter, callHook, h1, h2, updateLogs]⟩
    | ok o =>
      cases h3 : cfg.hookErr (.afterTrainIter idx b o) with
      | some e =>
        right; right; left
        exact ⟨o, e, rfl, rfl, h3,
          by simp [run_iter, callHook, h1, h2, h3, updateLogs]⟩
      | none =>
        right; right; right
        exact ⟨o, rfl, rfl, h3,
          by simp [run_iter, callHook, h1, h2, h3, updateLogs]⟩

theorem eb_run_iter_epoch (cfg : Cfg B O V) (idx : Nat) (b : B) (s : Runner B O V) :
    (run_iter cfg idx b s).1.epoch = s.epoch := by
  rcases eb_run_iter_spec cfg idx b s with
    ⟨e, h1, heq⟩ | ⟨e, h1, h2, heq⟩ | ⟨o, e, h1, h2, h3, heq⟩ | ⟨o, h1, h2, h3, heq⟩ <;>
    simp [heq]

theorem eb_run_iter_curDL (cfg : Cfg B O V) (idx : Nat) (b : B) (s : Runner B O V) :
    (run_iter cfg idx b s).1.curDataloader = s.curDataloader := by
  rcases eb_run_iter_spec cfg idx b s with
    ⟨e, h1, heq⟩ | ⟨e, h1, h2, heq⟩ | ⟨o, e, h1, h2, h3, heq⟩ | ⟨o, h1, h2, h3, heq⟩ <;>
    simp [heq]

theorem eb_run_iter_iter_none (cfg : Cfg B O V) (idx : Nat) (b : B)
    (s : Runner B O V) (h : (run_iter cfg idx b s).2 = none) :
    (run_iter cfg idx b s).1.iter = s.iter + 1 := by
  rcases eb_run_iter_spec cfg idx b s with
    ⟨e, h1, heq⟩ | ⟨e, h1, h2, heq⟩ | ⟨o, e, h1, h2, h3, heq⟩ | ⟨o, h1, h2, h3, heq⟩ <;>
    rw [heq] at h ⊢ <;> simp_all

theorem eb_run_iter_iter_some (cfg : Cfg B O V) (idx : Nat) (b : B)
    (s : Runner B O V) (h : (run_iter cfg idx b s).2 ≠ none) :
    (run_iter cfg idx b s).1.iter = s.iter := by
  rcases eb_run_iter_spec cfg idx b s with
    ⟨e, h1, heq⟩ | ⟨e, h1, h2, heq⟩ | ⟨o, e, h1, h2, h3, heq⟩ | ⟨o, h1, h2, h3, heq⟩ <;>
    rw [heq] at h ⊢ <;> simp_all

theorem eb_run_iter_iter_le (cfg : Cfg B O V) (idx : Nat) (b : B)
    (s : Runner B O V) :
    s.iter ≤ (run_iter cfg idx b s).1.iter ∧
      (run_iter cfg idx b s).1.iter ≤ s.iter + 1 := by
  rcases eb_run_iter_spec cfg idx b s with
    ⟨e, h1, heq⟩ | ⟨e, h1, h2, heq⟩ | ⟨o, e, h1, h2, h3, heq⟩ | ⟨o, h1, h2, h3, heq⟩ <;>
    simp [heq]

theorem eb_run_iter_hub (cfg : Cfg B O V) (idx : Nat) (b : B) (s : Runner B O V) :
    ∃ t, (run_iter cfg idx b s).1.messageHub = s.messageHub ++ t := by
  rcases eb_run_iter_spec cfg idx b s with
    ⟨e, h1, heq⟩ | ⟨e, h1, h2, heq⟩ | ⟨o, e, h1, h2, h3, heq⟩ | ⟨o, h1, h2, h3, heq⟩ <;>
    rw [heq] <;> [exact ⟨[], by simp⟩; exact ⟨[], by simp⟩;
      exact ⟨_, rfl⟩; exact ⟨_, rfl⟩]

theorem eb_run_iter_names_none (cfg : Cfg B O V) (idx : Nat) (b : B)
    (s : Runner B O V) (h : (run_iter cfg idx b s).2 = none) :
    nameTrace (run_iter cfg idx b s).1 =
      nameTrace s ++ ["before_train_iter", "after_train_iter"] := by
  rcases eb_run_iter_spec cfg idx b s with
    ⟨e, h1, heq⟩ | ⟨e, h1, h2, heq⟩ | ⟨o, e, h1, h2, h3, heq⟩ | ⟨o, h1, h2, h3, heq⟩ <;>
    rw [heq] at h ⊢ <;> simp_all [nameTrace, hookName]

end EpochBasedTrainLoop

namespace IterBasedTrainLoop

/-- Case analysis of `IterBasedTrainLoop.run_iter`; both hooks receive
`batch_idx = s.iter` and the increment is last. -/
theorem ib_run_iter_spec (cfg : Cfg B O V) (b : B) (s : Runner B O V) :
    (∃ e, cfg.hookErr (.beforeTrainIter s.iter b) = some e ∧
      run_iter cfg b s =
        ({ s with trace := s.trace ++ [.beforeTrainIter s.iter b] }, some e)) ∨
    (∃ e, cfg.hookErr (.beforeTrainIter s.iter b) = none ∧
      cfg.model b true = .error e ∧
      run_iter cfg b s =
        ({ s with trace := s.trace ++ [.beforeTrainIter s.iter b] }, some e)) ∨
    (∃ o e, cfg.hookErr (.beforeTrainIter s.iter b) = none ∧
      cfg.model b true = .ok o ∧
      cfg.hookErr (.afterTrainIter s.iter b o) = some e ∧
      run_iter cfg b s =
        ({ s with
            trace := s.trace ++
              [.beforeTrainIter s.iter b, .afterTrainIter s.iter b o],
            outputs := some o,
            messageHub := s.messageHub ++
              (cfg.logVars o).map (fun kv => ("train/" ++ kv.1, kv.2)) },
          some e)) ∨
    (∃ o, cfg.hookErr (.beforeTrainIter s.iter b) = none ∧
      cfg.model b true = .ok o ∧
      cfg.hookErr (.afterTrainIter s.iter b o) = none ∧
      run_iter cfg b s =
        ({ s with
            trace := s.trace ++
              [.beforeTrainIter s.iter b, .afterTrainIter s.iter b o],
            outputs := some o,
            messageHub := s.messageHub ++
              (cfg.logVars o).map (fun kv => ("train/" ++ kv.1, kv.2)),
            iter := s.iter + 1 },
          none)) := by
  cases h1 : cfg.hookErr (.beforeTrainIter s.iter b) with
  | some e =>
    left
    exact ⟨e, rfl, by simp [run_iter, callHook, h1]⟩
  | none =>
    cases h2 : cfg.model b true with
    | error e =>
      right; left
      exact ⟨e, rfl, by simp [run_iter, callHook, h1, h2, updateLogs]⟩
    | ok o =>
      cases h3 : cfg.hookErr (.afterTrainIter s.iter b o) with
      | some e =>
        right; right; left
        exact ⟨o, e, rfl, rfl, h3,
          by simp [run_iter, callHook, h1, h2, h3, updateLogs]⟩
      | none =>
        right; right; right
        exact ⟨o, rfl, rfl, h3,
          by simp [run_iter, callHook, h1, h2, h3, updateLogs]⟩

theorem ib_run_iter_epoch (cfg : Cfg B O V) (b : B) (s : Runner B O V) :
    (run_iter cfg b s).1.epoch = s.epoch := by
  rcases ib_run_iter_spec cfg b s with
    ⟨e, h1, heq⟩ | ⟨e, h1, h2, heq⟩ | ⟨o, e, h1, h2, h3, heq⟩ | ⟨o, h1, h2, h3, heq⟩ <;>
    simp [heq]

theorem ib_run_iter_curDL (cfg : Cfg B O V) (b : B) (s : Runner B O V) :
    (run_iter cfg b s).1.curDataloader = s.curDataloader := by
  rcases ib_run_iter_spec cfg b s with
    ⟨e, h1, heq⟩ | ⟨e, h1, h2, heq⟩ | ⟨o, e, h1, h2, h3, heq⟩ | ⟨o, h1, h2, h3, heq⟩ <;>
    simp [heq]

theorem ib_run_iter_iter_none (cfg : Cfg B O V) (b : B)
    (s : Runner B O V) (h : (run_iter cfg b s).2 = none) :
    (run_iter cfg b s).1.iter = s.iter + 1 := by
  rcases ib_run_iter_spec cfg b s with
    ⟨e, h1, heq⟩ | ⟨e, h1, h2, heq⟩ | ⟨o, e, h1, h2, h3, heq⟩ | ⟨o, h1, h2, h3, heq⟩ <;>
    rw [heq] at h ⊢ <;> simp_all

theorem ib_run_iter_iter_some (cfg : Cfg B O V) (b : B)
    (s : Runner B O V) (h : (run_iter cfg b s).2 ≠ none) :
    (run_iter cfg b s).1.iter = s.iter := by
  rcases ib_run_iter_spec cfg b s with
    ⟨e, h1, heq⟩ | ⟨e, h1, h2, heq⟩ | ⟨o, e, h1, h2, h3, heq⟩ | ⟨o, h1, h2, h3, heq⟩ <;>
    rw [heq] at h ⊢ <;> simp_all

theorem ib_run_iter_iter_le (cfg : Cfg B O V) (b : B) (s : Runner B O V) :
    s.iter ≤ (run_iter cfg b s).1.iter ∧
      (run_iter cfg b s).1.iter ≤ s.iter + 1 := by
  rcases ib_run_iter_spec cfg b s with
    ⟨e, h1, heq⟩ | ⟨e, h1, h2, heq⟩ | ⟨o, e, h1, h2, h3, heq⟩ | ⟨o, h1, h2, h3, heq⟩ <;>
    simp [heq]

theorem ib_run_iter_hub (cfg : Cfg B O V) (b : B) (s : Runner B O V) :
    ∃ t, (run_iter cfg b s).1.messageHub = s.messageHub ++ t := by
  rcases ib_run_iter_spec cfg b s with
    ⟨e, h1, heq⟩ | ⟨e, h1, h2, heq⟩ | ⟨o, e, h1, h2, h3, heq⟩ | ⟨o, h1, h2, h3, heq⟩ <;>
    rw [heq] <;> [exact ⟨[], by simp⟩; exact ⟨[], by simp⟩;
      exact ⟨_, rfl⟩; exact ⟨_, rfl⟩]

end IterBasedTrainLoop

namespace ValLoop

/-- Case analysis of `ValLoop.run_iter`: the before-hook raises, the
model raises, or the batch is processed and the result error is
whatever the after-hook produces.  In no case are `epoch`, `iter`,
`outputs` or `curDataloader` written. -/
theorem val_run_iter_spec (cfg : Cfg B O V) (idx : Nat) (b : B) (s : Runner B O V) :
    (∃ e, cfg.hookErr (.beforeValIter idx b) = some e ∧
      run_iter cfg idx b s =
        ({ s with trace := s.trace ++ [.beforeValIter idx b] }, some e)) ∨
    (∃ e, cfg.hookErr (.beforeValIter idx b) = none ∧
      cfg.model b false = .error e ∧
      run_iter cfg idx b s =
        ({ s with trace := s.trace ++ [.beforeValIter idx b] }, some e)) ∨
    (∃ o, cfg.hookErr (.beforeValIter idx b) = none ∧
      cfg.model b false = .ok o ∧
      run_iter cfg idx b s =
        ({ s with
            trace := s.trace ++ [.beforeValIter idx b, .afterValIter idx b o],
            evalAccum := s.evalAccum ++ [(b, o)] },
          cfg.hookErr (.afterValIter idx b o))) := by
  cases h1 : cfg.hookErr (.beforeValIter idx b) with
  | some e =>
    left
    exact ⟨e, rfl, by simp [run_iter, callHook, h1]⟩
  | none =>
    cases h2 : cfg.model b false with
    | error e =>
      right; left
      exact ⟨e, rfl, by simp [run_iter, callHook, h1, h2]⟩
    | ok o =>
      right; right
      exact ⟨o, rfl, rfl, by simp [run_iter, callHook, h1, h2]⟩

/-- A validation iteration never writes the counters, the stored
outputs or the active-dataloader pointer, raising or not. -/
theorem val_run_iter_pres (cfg : Cfg B O V) (idx : Nat) (b : B) (s : Runner B O V) :
    (run_iter cfg idx b s).1.epoch = s.epoch ∧
    (run_iter cfg idx b s).1.iter = s.iter ∧
    (run_iter cfg idx b s).1.outputs = s.outputs ∧
    (run_iter cfg idx b s).1.curDataloader = s.curDataloader ∧
    (run_iter cfg idx b s).1.messageHub = s.messageHub := by
  rcases val_run_iter_spec cfg idx b s with
    ⟨e, h1, heq⟩ | ⟨e, h1, h2, heq⟩ | ⟨o, h1, h2, heq⟩ <;> simp [heq]

theorem val_run_iters_pres (cfg : Cfg B O V) :
    ∀ (l : List B) (idx : Nat) (s : Runner B O V),
    (run_iters cfg idx l s).1.epoch = s.epoch ∧
    (run_iters cfg idx l s).1.iter = s.iter ∧
    (run_iters cfg idx l s).1.outputs = s.outputs ∧
    (run_iters cfg idx l s).1.curDataloader = s.curDataloader ∧
    (run_iters cfg idx l s).1.messageHub = s.messageHub
  | [], idx, s => by simp [run_iters]
  | b :: rest, idx, s => by
    rcases hr : run_iter cfg idx b s with ⟨s', e⟩
    have hp := val_run_iter_pres cfg idx b s
    rw [hr] at hp
    cases e with
    | some e => simpa [run_iters, hr] using hp
    | none =>
      have ih := val_run_iters_pres cfg rest (idx + 1) s'
      simp only [run_iters, hr, andThen_ok]
      exact ⟨ih.1.trans hp.1, ih.2.1.trans hp.2.1, ih.2.2.1.trans hp.2.2.1,
        ih.2.2.2.1.trans hp.2.2.2.1, ih.2.2.2.2.trans hp.2.2.2.2⟩

/-- `ValLoop.run` never writes `runner._epoch`, `runner._iter` or
`runner.outputs`, whether it completes or raises. -/
theorem val_run_pres (cfg : Cfg B O V) (vcfg : ValCfg B O V) (s : Runner B O V) :
    (run cfg vcfg s).1.epoch = s.epoch ∧
    (run cfg vcfg s).1.iter = s.iter ∧
    (run cfg vcfg s).1.outputs = s.outputs := by
  unfold run
  rcases h1 : cfg.hookErr HookCall.beforeVal with _ | e1 <;>
    simp only [callHook, h1, andThen_ok, andThen_err]
  case some => simp
  rcases h2 : cfg.hookErr HookCall.beforeValEpoch with _ | e2 <;>
    simp only [callHook, h2, andThen_ok, andThen_err]
  case some => simp
  have hp := val_run_iters_pres cfg vcfg.batches 0
    ({ s with curDataloader := some vcfg.dlId,
              trace := (s.trace ++ [HookCall.beforeVal]) ++ [HookCall.beforeValEpoch],
              trainingMode := false })
  rcases hr : run_iters cfg 0 vcfg.batches _ with ⟨s', e⟩
  rw [hr] at hp
  obtain ⟨he, hi, ho, -, -⟩ := hp
  cases e with
  | some e =>
    simp only [andThen_err]
    exact ⟨by simpa using he, by simpa using hi, by simpa using ho⟩
  | none =>
    simp only [andThen_ok]
    rcases h3 : cfg.hookErr HookCall.afterValEpoch with _ | e3 <;>
      simp only [callHook, updateLogs, h3, andThen_ok, andThen_err] <;>
      exact ⟨by simpa using he, by simpa using hi, by simpa using ho⟩

end ValLoop

namespace TestLoop

/-- Case analysis of `TestLoop.run_iter`, mirroring the validation
iteration in the `test` hook namespace. -/
theorem test_run_iter_spec (cfg : Cfg B O V) (idx : Nat) (b : B) (s : Runner B O V) :
    (∃ e, cfg.hookErr (.beforeTestIter idx b) = some e ∧
      run_iter cfg idx b s =
        ({ s with trace := s.trace ++ [.beforeTestIter idx b] }, some e)) ∨
    (∃ e, cfg.hookErr (.beforeTestIter idx b) = none ∧
      cfg.model b false = .error e ∧
      run_iter cfg idx b s =
        ({ s with trace := s.trace ++ [.beforeTestIter idx b] }, some e)) ∨
    (∃ o, cfg.hookErr (.beforeTestIter idx b) = none ∧
      cfg.model b false = .ok o ∧
      run_iter cfg idx b s =
        ({ s with
            trace := s.trace ++ [.beforeTestIter idx b, .afterTestIter idx b o],
            evalAccum := s.evalAccum ++ [(b, o)] },
          cfg.hookErr (.afterTestIter idx b o))) := by
  cases h1 : cfg.hookErr (.beforeTestIter idx b) with
  | some e =>
    left
    exact ⟨e, rfl, by simp [run_iter, callHook, h1]⟩
  | none =>
    cases h2 : cfg.model b false with
    | error e =>
      right; left
      exact ⟨e, rfl, by simp [run_iter, callHook, h1, h2]⟩
    | ok o =>
      right; right
      exact ⟨o, rfl, rfl, by simp [run_iter, callHook, h1, h2]⟩

/-- A test iteration never writes the counters, the stored outputs or
the active-dataloader pointer. -/
theorem test_run_iter_pres (cfg : Cfg B O V) (idx : Nat) (b : B) (s : Runner B O V) :
    (run_iter cfg idx b s).1.epoch = s.epoch ∧
    (run_iter cfg idx b s).1.iter = s.iter ∧
    (run_iter cfg idx b s).1.outputs = s.outputs ∧
    (run_iter cfg idx b s).1.curDataloader = s.curDataloader ∧
    (run_iter cfg idx b s).1.messageHub = s.messageHub := by
  rcases test_run_iter_spec cfg idx b s with
    ⟨e, h1, heq⟩ | ⟨e, h1, h2, heq⟩ | ⟨o, h1, h2, heq⟩ <;> simp [heq]

theorem test_run_iters_pres (cfg : Cfg B O V) :
    ∀ (l : List B) (idx : Nat) (s : Runner B O V),
    (run_iters cfg idx l s).1.epoch = s.epoch ∧
    (run_iters cfg idx l s).1.iter = s.iter ∧
    (run_iters cfg idx l s).1.outputs = s.outputs ∧
    (run_iters cfg idx l s).1.curDataloader = s.curDataloader ∧
    (run_iters cfg idx l s).1.messageHub = s.messageHub
  | [], idx, s => by simp [run_iters]
  | b :: rest, idx, s => by
    rcases hr : run_iter cfg idx b s with ⟨s', e⟩
    have hp := test_run_iter_pres cfg idx b s
    rw [hr] at hp
    cases e with
    | some e => simpa [run_iters, hr] using hp
    | none =>
      have ih := test_run_iters_pres cfg rest (idx + 1) s'
      simp only [run_iters, hr, andThen_ok]
      exact ⟨ih.1.trans hp.1, ih.2.1.trans hp.2.1, ih.2.2.1.trans hp.2.2.1,
        ih.2.2.2.1.trans hp.2.2.2.1, ih.2.2.2.2.trans hp.2.2.2.2⟩

/-- `TestLoop.run` never writes `runner._epoch`, `runner._iter` or
`runner.outputs`, whether it completes or raises. -/
theorem test_run_pres (cfg : Cfg B O V) (tcfg : TestCfg B O V) (s : Runner B O V) :
    (run cfg tcfg s).1.epoch = s.epoch ∧
    (run cfg tcfg s).1.iter = s.iter ∧
    (run cfg tcfg s).1.outputs = s.outputs := by
  unfold run
  rcases h1 : cfg.hookErr HookCall.beforeTest with _ | e1 <;>
    simp only [callHook, h1, andThen_ok, andThen_err]
  case some => simp
  rcases h2 : cfg.hookErr HookCall.beforeTestEpoch with _ | e2 <;>
    simp only [callHook, h2, andThen_ok, andThen_err]
  case some => simp
  have hp := test_run_iters_pres cfg tcfg.batches 0
    ({ s with curDataloader := some tcfg.dlId,
              trace := (s.trace ++ [HookCall.beforeTest]) ++ [HookCall.beforeTestEpoch],
              trainingMode := false })
  rcases hr : run_iters cfg 0 tcfg.batches _ with ⟨s', e⟩
  rw [hr] at hp
  obtain ⟨he, hi, ho, -, -⟩ := hp
  cases e with
  | some e =>
    simp only [andThen_err]
    exact ⟨by simpa using he, by simpa using hi, by simpa using ho⟩
  | none =>
    simp only [andThen_ok]
    rcases h3 : cfg.hookErr HookCall.afterTestEpoch with _ | e3 <;>
      simp only [callHook, updateLogs, h3, andThen_ok, andThen_err] <;>
      exact ⟨by simpa using he, by simpa using hi, by simpa using ho⟩

end TestLoop

/-- Expected hook names of `n` training-iteration pairs, in batch
order. -/
def iterPairNames : Nat → List String
  | 0 => []
  | n + 1 => "before_train_iter" :: "after_train_iter" :: iterPairNames n

/-- Expected hook names of `n` validation-iteration pairs. -/
def valIterNames : Nat → List String
  | 0 => []
  | n + 1 => "before_val_iter" :: "after_val_iter" :: valIterNames n

/-- The full hook sequence of one `ValLoop.run` over `n` batches. -/
def valSeqNames (n : Nat) : List String :=
  "before_val" :: "before_val_epoch" ::
    (valIterNames n ++ ["after_val_epoch", "after_val"])

/-- The hook sequence of one training epoch over `nB` batches: one
`before_train_epoch`, one iteration pair per batch in batch order, one
`after_train_epoch`. -/
def epochBlockNames (nB : Nat) : List String :=
  "before_train_epoch" :: (iterPairNames nB ++ ["after_train_epoch"])

namespace EpochBasedTrainLoop

theorem eb_run_iters_pres (cfg : Cfg B O V) :
    ∀ (l : List B) (idx : Nat) (s : Runner B O V),
    (run_iters cfg idx l s).1.epoch = s.epoch ∧
    (run_iters cfg idx l s).1.curDataloader = s.curDataloader
  | [], idx, s => by simp [run_iters]
  | b :: rest, idx, s => by
    rcases hr : run_iter cfg idx b s with ⟨s', e⟩
    have hpe := eb_run_iter_epoch cfg idx b s
    have hpc := eb_run_iter_curDL cfg idx b s
    rw [hr] at hpe hpc
    simp only [Prod.fst] at hpe hpc
    cases e with
    | some e => simp [run_iters, hr, hpe, hpc]
    | none =>
      have ih := eb_run_iters_pres cfg rest (idx + 1) s'
      simp only [run_iters, hr, andThen_ok]
      exact ⟨ih.1.trans hpe, ih.2.trans hpc⟩

/-- The iteration loop of an epoch advances `runner._iter` by exactly
the number of fully completed iterations: some `k ≤ len`, with
`k = len` when no error was raised. -/
theorem eb_run_iters_completed (cfg : Cfg B O V) :
    ∀ (l : List B) (idx : Nat) (s : Runner B O V),
    ∃ k, k ≤ l.length ∧ (run_iters cfg idx l s).1.iter = s.iter + k ∧
      ((run_iters cfg idx l s).2 = none → k = l.length)
  | [], idx, s => ⟨0, by simp [run_iters]⟩
  | b :: rest, idx, s => by
    rcases hr : run_iter cfg idx b s with ⟨s', e⟩
    cases e with
    | some e =>
      have hi := eb_run_iter_iter_some cfg idx b s (by rw [hr]; simp)
      rw [hr] at hi
      simp only [Prod.fst] at hi
      exact ⟨0, by simp [run_iters, hr, hi]⟩
    | none =>
      have hi := eb_run_iter_iter_none cfg idx b s (by rw [hr])
      rw [hr] at hi
      simp only [Prod.fst] at hi
      obtain ⟨k, hk, hik, hnk⟩ := eb_run_iters_completed cfg rest (idx + 1) s'
      refine ⟨k + 1, by simpa using Nat.succ_le_succ hk, ?_, ?_⟩
      · simp only [run_iters, hr, andThen_ok, hik, hi]
        omega
      · intro h
        rw [run_iters, hr, andThen_ok] at h
        simp [hnk h]

theorem eb_run_iters_hub (cfg : Cfg B O V) :
    ∀ (l : List B) (idx : Nat) (s : Runner B O V),
    ∃ t, (run_iters cfg idx l s).1.messageHub = s.messageHub ++ t
  | [], idx, s => ⟨[], by simp [run_iters]⟩
  | b :: rest, idx, s => by
    rcases hr : run_iter cfg idx b s with ⟨s', e⟩
    obtain ⟨t1, ht1⟩ := eb_run_iter_hub cfg idx b s
    rw [hr] at ht1
    simp only [Prod.fst] at ht1
    cases e with
    | some e => exact ⟨t1, by simp [run_iters, hr, ht1]⟩
    | none =>
      obtain ⟨t2, ht2⟩ := eb_run_iters_hub cfg rest (idx + 1) s'
      exact ⟨t1 ++ t2, by simp [run_iters, hr, ht2, ht1]⟩

theorem eb_run_iters_names_none (cfg : Cfg B O V) :
    ∀ (l : List B) (idx : Nat) (s : Runner B O V),
    (run_iters cfg idx l s).2 = none →
    nameTrace (run_iters cfg idx l s).1 = nameTrace s ++ iterPairNames l.length
  | [], idx, s => by simp [run_iters, iterPairNames]
  | b :: rest, idx, s => by
    intro h
    rcases hr : run_iter cfg idx b s with ⟨s', e⟩
    cases e with
    | some e => rw [run_iters, hr] at h; simp at h
    | none =>
      rw [run_iters, hr, andThen_ok] at h ⊢
      have h1 := eb_run_iter_names_none cfg idx b s (by rw [hr])
      rw [hr] at h1
      rw [eb_run_iters_names_none cfg rest (idx + 1) s' h, h1]
      simp [iterPairNames]

end EpochBasedTrainLoop

namespace ValLoop

theorem val_run_iter_names_none (cfg : Cfg B O V) (idx : Nat) (b : B)
    (s : Runner B O V) (h : (run_iter cfg idx b s).2 = none) :
    nameTrace (run_iter cfg idx b s).1 =
      nameTrace s ++ ["before_val_iter", "after_val_iter"] := by
  rcases val_run_iter_spec cfg idx b s with
    ⟨e, h1, heq⟩ | ⟨e, h1, h2, heq⟩ | ⟨o, h1, h2, heq⟩ <;>
    rw [heq] at h ⊢ <;> simp_all [nameTrace, hookName]

theorem val_run_iters_names_none (cfg : Cfg B O V) :
    ∀ (l : List B) (idx : Nat) (s : Runner B O V),
    (run_iters cfg idx l s).2 = none →
    nameTrace (run_iters cfg idx l s).1 = nameTrace s ++ valIterNames l.length
  | [], idx, s => by simp [run_iters, valIterNames]
  | b :: rest, idx, s => by
    intro h
    rcases hr : run_iter cfg idx b s with ⟨s', e⟩
    cases e with
    | some e => rw [run_iters, hr] at h; simp at h
    | none =>
      rw [run_iters, hr, andThen_ok] at h ⊢
      have h1 := val_run_iter_names_none cfg idx b s (by rw [hr])
      rw [hr] at h1
      rw [val_run_iters_names_none cfg rest (idx + 1) s' h, h1]
      simp [valIterNames]

/-- A completed `ValLoop.run` emits exactly the validation hook
sequence. -/
theorem val_run_names_none (cfg : Cfg B O V) (vcfg : ValCfg B O V)
    (s : Runner B O V) (h : (run cfg vcfg s).2 = none) :
    nameTrace (run cfg vcfg s).1 =
      nameTrace s ++ valSeqNames vcfg.batches.length := by
  unfold run at h ⊢
  rcases h1 : cfg.hookErr HookCall.beforeVal with _ | e1
  case some => simp [callHook, h1] at h
  simp only [callHook, h1, andThen_ok] at h ⊢
  rcases h2 : cfg.hookErr HookCall.beforeValEpoch with _ | e2
  case some => simp [callHook, h2] at h
  simp only [callHook, h2, andThen_ok] at h ⊢
  rcases hri : run_iters cfg 0 vcfg.batches
      { s with curDataloader := some vcfg.dlId,
               trace := (s.trace ++ [HookCall.beforeVal]) ++ [HookCall.beforeValEpoch],
               trainingMode := false } with ⟨s', e⟩
  rw [hri] at h
  cases e with
  | some e => simp at h
  | none =>
    have hnames := val_run_iters_names_none cfg vcfg.batches 0
      { s with curDataloader := some vcfg.dlId,
               trace := (s.trace ++ [HookCall.beforeVal]) ++ [HookCall.beforeValEpoch],
               trainingMode := false } (by rw [hri])
    rw [hri] at hnames
    simp only [Prod.fst] at hnames
    simp only [andThen_ok] at h ⊢
    rcases h3 : cfg.hookErr HookCall.afterValEpoch with _ | e3
    case some => simp [callHook, updateLogs, h3] at h
    simp only [callHook, updateLogs, h3, andThen_ok]
    simp only [nameTrace] at hnames ⊢
    simp [hnames, valSeqNames, valIterNames, hookName, nameTrace]

/-- `ValLoop.run` always leaves `runner.cur_dataloader` pointing at the
validation dataloader, whether it completes or raises after the
initial assignment. -/
theorem val_run_curDL (cfg : Cfg B O V) (vcfg : ValCfg B O V) (s : Runner B O V) :
    (run cfg vcfg s).1.curDataloader = some vcfg.dlId := by
  unfold run
  rcases h1 : cfg.hookErr HookCall.beforeVal with _ | e1 <;>
    simp only [callHook, h1, andThen_ok, andThen_err]
  rcases h2 : cfg.hookErr HookCall.beforeValEpoch with _ | e2 <;>
    simp only [callHook, h2, andThen_ok, andThen_err]
  have hp := val_run_iters_pres cfg vcfg.batches 0
    ({ s with curDataloader := some vcfg.dlId,
              trace := (s.trace ++ [HookCall.beforeVal]) ++ [HookCall.beforeValEpoch],
              trainingMode := false })
  rcases hr : run_iters cfg 0 vcfg.batches _ with ⟨s', e⟩
  rw [hr] at hp
  have hc : s'.curDataloader = some vcfg.dlId := by simpa using hp.2.2.2.1
  cases e with
  | some e => simpa using hc
  | none =>
    simp only [andThen_ok]
    rcases h3 : cfg.hookErr HookCall.afterValEpoch with _ | e3 <;>
      simp only [callHook, updateLogs, h3, andThen_ok, andThen_err] <;>
      simpa using hc

/-- `ValLoop.run` only appends to the log sink. -/
theorem val_run_hub (cfg : Cfg B O V) (vcfg : ValCfg B O V) (s : Runner B O V) :
    ∃ t, (run cfg vcfg s).1.messageHub = s.messageHub ++ t := by
  unfold run
  rcases h1 : cfg.hookErr HookCall.beforeVal with _ | e1 <;>
    simp only [callHook, h1, andThen_ok, andThen_err]
  case some => exact ⟨[], by simp⟩
  rcases h2 : cfg.hookErr HookCall.beforeValEpoch with _ | e2 <;>
    simp only [callHook, h2, andThen_ok, andThen_err]
  case some => exact ⟨[], by simp⟩
  have hp := val_run_iters_pres cfg vcfg.batches 0
    ({ s with curDataloader := some vcfg.dlId,
              trace := (s.trace ++ [HookCall.beforeVal]) ++ [HookCall.beforeValEpoch],
              trainingMode := false })
  rcases hr : run_iters cfg 0 vcfg.batches _ with ⟨s', e⟩
  rw [hr] at hp
  have hh : s'.messageHub = s.messageHub := by simpa using hp.2.2.2.2
  cases e with
  | some e => exact ⟨[], by simpa using hh⟩
  | none =>
    simp only [andThen_ok]
    rcases h3 : cfg.hookErr HookCall.afterValEpoch with _ | e3 <;>
      simp only [callHook, updateLogs, h3, andThen_ok, andThen_err] <;>
      exact ⟨_, by rw [← hh]⟩

end ValLoop

namespace EpochBasedTrainLoop

/-- The post-epoch validation check never writes the counters or the
stored outputs. -/
theorem eb_valCheck_pres (cfg : Cfg B O V) (s : Runner B O V) :
    (valCheck cfg s).1.epoch = s.epoch ∧
    (valCheck cfg s).1.iter = s.iter ∧
    (valCheck cfg s).1.outputs = s.outputs := by
  unfold valCheck
  cases hv : cfg.valLoop with
  | none => simp
  | some vl =>
    by_cases h0 : vl.interval = 0
    · simp [h0]
    · by_cases ht : s.epoch % vl.interval = 0
      · simp only [h0, ht, if_true, if_false]
        exact ValLoop.val_run_pres cfg vl s
      · simp [h0, ht]

/-- The hook names the post-epoch validation check emits: the full
validation sequence exactly when the (already incremented) epoch
counter is divisible by the interval. -/
theorem eb_valCheck_names_none (cfg : Cfg B O V) (vl : ValCfg B O V)
    (hvl : cfg.valLoop = some vl) (s : Runner B O V)
    (h : (valCheck cfg s).2 = none) :
    nameTrace (valCheck cfg s).1 = nameTrace s ++
      (if s.epoch % vl.interval = 0 then valSeqNames vl.batches.length
        else []) := by
  unfold valCheck at h ⊢
  rw [hvl] at h ⊢
  by_cases h0 : vl.interval = 0
  · simp [h0] at h
  · by_cases ht : s.epoch % vl.interval = 0
    · simp only [h0, ht, if_true, if_false] at h ⊢
      exact ValLoop.val_run_names_none cfg vl s h
    · simp [h0, ht]

/-- Where the post-epoch validation check leaves the
active-dataloader pointer. -/
theorem eb_valCheck_curDL (cfg : Cfg B O V) (vl : ValCfg B O V)
    (hvl : cfg.valLoop = some vl) (s : Runner B O V) :
    (valCheck cfg s).1.curDataloader =
      if vl.interval ≠ 0 ∧ s.epoch % vl.interval = 0 then some vl.dlId
      else s.curDataloader := by
  unfold valCheck
  rw [hvl]
  by_cases h0 : vl.interval = 0
  · simp [h0]
  · by_cases ht : s.epoch % vl.interval = 0
    · simp only [h0, ht, if_true, if_false, ne_eq, not_false_iff, and_self]
      exact ValLoop.val_run_curDL cfg vl s
    · simp [h0, ht]

theorem eb_valCheck_hub (cfg : Cfg B O V) (s : Runner B O V) :
    ∃ t, (valCheck cfg s).1.messageHub = s.messageHub ++ t := by
  unfold valCheck
  cases hv : cfg.valLoop with
  | none => exact ⟨[], by simp⟩
  | some vl =>
    by_cases h0 : vl.interval = 0
    · exact ⟨[], by simp [h0]⟩
    · by_cases ht : s.epoch % vl.interval = 0
      · simp only [h0, ht, if_true, if_false]
        exact ValLoop.val_run_hub cfg vl s
      · exact ⟨[], by simp [h0, ht]⟩

/-- A completed `run_epoch` advances `runner._epoch` by exactly one,
`runner._iter` by exactly the batch count, emits exactly the epoch's
hook block, and leaves the active-dataloader pointer alone. -/
theorem eb_run_epoch_ok (cfg : Cfg B O V) (ecfg : EpochCfg B) (s : Runner B O V)
    (h : (run_epoch cfg ecfg s).2 = none) :
    (run_epoch cfg ecfg s).1.epoch = s.epoch + 1 ∧
    (run_epoch cfg ecfg s).1.iter = s.iter + ecfg.batches.length ∧
    nameTrace (run_epoch cfg ecfg s).1 =
      nameTrace s ++ epochBlockNames ecfg.batches.length ∧
    (run_epoch cfg ecfg s).1.curDataloader = s.curDataloader := by
  unfold run_epoch at h ⊢
  rcases h1 : cfg.hookErr HookCall.beforeTrainEpoch with _ | e1
  case some => simp [callHook, h1] at h
  simp only [callHook, h1, andThen_ok] at h ⊢
  rcases hri : run_iters cfg 0 ecfg.batches
      { s with trace := s.trace ++ [HookCall.beforeTrainEpoch],
               trainingMode := true } with ⟨s', e⟩
  rw [hri] at h
  cases e with
  | some e => simp at h
  | none =>
    simp only [andThen_ok] at h ⊢
    rcases h2 : cfg.hookErr HookCall.afterTrainEpoch with _ | e2
    case some => simp [callHook, h2] at h
    have hpres := eb_run_iters_pres cfg ecfg.batches 0
      { s with trace := s.trace ++ [HookCall.beforeTrainEpoch],
               trainingMode := true }
    obtain ⟨k, hk, hik, hnk⟩ := eb_run_iters_completed cfg ecfg.batches 0
      { s with trace := s.trace ++ [HookCall.beforeTrainEpoch],
               trainingMode := true }
    have hnames := eb_run_iters_names_none cfg ecfg.batches 0
      { s with trace := s.trace ++ [HookCall.beforeTrainEpoch],
               trainingMode := true } (by rw [hri])
    rw [hri] at hpres hik hnk hnames
    simp only [callHook, h2, andThen_ok]
    refine ⟨by simpa using hpres.1, ?_, ?_, by simpa using hpres.2⟩
    · have : k = ecfg.batches.length := hnk rfl
      simp only [this] at hik
      simpa using hik
    · simp only [nameTrace] at hnames ⊢
      simp [hnames, epochBlockNames, hookName]

/-- Whether it completes or raises, `run_epoch` leaves `runner._epoch`
at its old value or one more, advances `runner._iter` by at most the
batch count, never decreases either, preserves the dataloader pointer,
and only appends to the log sink. -/
theorem eb_run_epoch_parts (cfg : Cfg B O V) (ecfg : EpochCfg B) (s : Runner B O V) :
    ((run_epoch cfg ecfg s).1.epoch = s.epoch ∨
      (run_epoch cfg ecfg s).1.epoch = s.epoch + 1) ∧
    (∃ k, k ≤ ecfg.batches.length ∧
      (run_epoch cfg ecfg s).1.iter = s.iter + k) ∧
    (run_epoch cfg ecfg s).1.curDataloader = s.curDataloader ∧
    (∃ t, (run_epoch cfg ecfg s).1.messageHub = s.messageHub ++ t) := by
  unfold run_epoch
  rcases h1 : cfg.hookErr HookCall.beforeTrainEpoch with _ | e1
  case some =>
    refine ⟨Or.inl ?_, ⟨0, by simp, ?_⟩, ?_, ⟨[], by simp [callHook, h1]⟩⟩ <;>
      simp [callHook, h1]
  simp only [callHook, h1, andThen_ok]
  rcases hri : run_iters cfg 0 ecfg.batches
      { s with trace := s.trace ++ [HookCall.beforeTrainEpoch],
               trainingMode := true } with ⟨s', e⟩
  have hpres := eb_run_iters_pres cfg ecfg.batches 0
    { s with trace := s.trace ++ [HookCall.beforeTrainEpoch],
             trainingMode := true }
  obtain ⟨k, hk, hik, -⟩ := eb_run_iters_completed cfg ecfg.batches 0
    { s with trace := s.trace ++ [HookCall.beforeTrainEpoch],
             trainingMode := true }
  obtain ⟨t, ht⟩ := eb_run_iters_hub cfg ecfg.batches 0
    { s with trace := s.trace ++ [HookCall.beforeTrainEpoch],
             trainingMode := true }
  rw [hri] at hpres hik ht
  simp at hpres hik ht
  cases e with
  | some e =>
    exact ⟨Or.inl (by simpa using hpres.1), ⟨k, hk, by simpa using hik⟩,
      by simpa using hpres.2, ⟨t, by simpa using ht⟩⟩
  | none =>
    simp only [andThen_ok]
    rcases h2 : cfg.hookErr HookCall.afterTrainEpoch with _ | e2 <;>
      simp only [callHook, h2, andThen_ok, andThen_err]
    case some =>
      exact ⟨Or.inl (by simpa using hpres.1), ⟨k, hk, by simpa using hik⟩,
        by simpa using hpres.2, ⟨t, by simpa using ht⟩⟩
    exact ⟨Or.inr (by simp [hpres.1]),
      ⟨k, hk, by simpa using hik⟩,
      by simpa using hpres.2, ⟨t, by simpa using ht⟩⟩

end EpochBasedTrainLoop

/-- Expected hook names of the remaining epochs of an epoch-based
training run, mirroring the spec: counting from current epoch `e`, each
remaining epoch contributes its block, followed by the full validation
sequence exactly when its 1-based number `e + 1` is divisible by
`interval`. -/
def expectedSeg (nB nV interval maxE : Nat) : Nat → Nat → List String
  | 0, _ => []
  | fuel + 1, e =>
    if e < maxE then
      epochBlockNames nB ++
        ((if (e + 1) % interval = 0 then valSeqNames nV else []) ++
          expectedSeg nB nV interval maxE fuel (e + 1))
    else []

/-- Epoch blocks with no validation inserted at all. -/
def pureSeg (nB maxE : Nat) : Nat → Nat → List String
  | 0, _ => []
  | fuel + 1, e =>
    if e < maxE then epochBlockNames nB ++ pureSeg nB maxE fuel (e + 1)
    else []

/-- Epoch blocks with the validation sequence after every epoch. -/
def everySeg (nB nV maxE : Nat) : Nat → Nat → List String
  | 0, _ => []
  | fuel + 1, e =>
    if e < maxE then
      epochBlockNames nB ++ (valSeqNames nV ++ everySeg nB nV maxE fuel (e + 1))
    else []

/-- `interval > maxEpochs` inserts validation zero times: every
1-based epoch number is at most `maxE < interval`, hence not divisible. -/
theorem expectedSeg_no_val (nB nV interval maxE : Nat) (h : maxE < interval) :
    ∀ (fuel e : Nat), expectedSeg nB nV interval maxE fuel e =
      pureSeg nB maxE fuel e
  | 0, _ => rfl
  | fuel + 1, e => by
    by_cases hlt : e < maxE
    · have hm : (e + 1) % interval = e + 1 :=
        Nat.mod_eq_of_lt (by omega)
      rw [expectedSeg, pureSeg, if_pos hlt, if_pos hlt, hm]
      simp [expectedSeg_no_val nB nV interval maxE h fuel (e + 1)]
    · rw [expectedSeg, pureSeg, if_neg hlt, if_neg hlt]

/-- `interval == 1` inserts validation after every epoch. -/
theorem expectedSeg_every (nB nV maxE : Nat) :
    ∀ (fuel e : Nat), expectedSeg nB nV 1 maxE fuel e =
      everySeg nB nV maxE fuel e
  | 0, _ => rfl
  | fuel + 1, e => by
    by_cases hlt : e < maxE
    · rw [expectedSeg, everySeg, if_pos hlt, if_pos hlt]
      simp [Nat.mod_one, expectedSeg_every nB nV maxE fuel (e + 1)]
    · rw [expectedSeg, everySeg, if_neg hlt, if_neg hlt]

namespace EpochBasedTrainLoop

/-- If the validation check returned rather than raising and a
validation loop is configured, its interval was nonzero. -/
theorem eb_valCheck_none_interval (cfg : Cfg B O V) (vl : ValCfg B O V)
    (hvl : cfg.valLoop = some vl) (s : Runner B O V)
    (h : (valCheck cfg s).2 = none) : vl.interval ≠ 0 := by
  intro h0
  simp only [valCheck, hvl] at h
  rw [if_pos h0] at h
  simp at h

/-- A completed epoch while-loop with sufficient fuel drives
`runner._epoch` to `max_epochs` and advances `runner._iter` by one
batch count per remaining epoch. -/
theorem eb_loopFuel_ok (cfg : Cfg B O V) (ecfg : EpochCfg B) :
    ∀ (fuel : Nat) (s : Runner B O V),
    (loopFuel cfg ecfg fuel s).2 = none →
    ecfg.max_epochs ≤ s.epoch + fuel → s.epoch ≤ ecfg.max_epochs →
    (loopFuel cfg ecfg fuel s).1.epoch = ecfg.max_epochs ∧
    (loopFuel cfg ecfg fuel s).1.iter =
      s.iter + (ecfg.max_epochs - s.epoch) * ecfg.batches.length
  | 0, s => by
    intro _ hf hle
    have he : s.epoch = ecfg.max_epochs := by omega
    simp [loopFuel, he]
  | fuel + 1, s => by
    intro h hf hle
    by_cases hlt : s.epoch < ecfg.max_epochs
    · rw [loopFuel, if_pos hlt] at h ⊢
      rcases hre : run_epoch cfg ecfg s with ⟨s1, e1⟩
      rw [hre] at h
      cases e1 with
      | some e1 => simp at h
      | none =>
        have hok := eb_run_epoch_ok cfg ecfg s (by rw [hre])
        rw [hre] at hok
        simp only [Prod.fst] at hok
        obtain ⟨he1, hi1, -, -⟩ := hok
        simp only [andThen_ok] at h ⊢
        rcases hvc : valCheck cfg s1 with ⟨s2, e2⟩
        rw [hvc] at h
        cases e2 with
        | some e2 => simp at h
        | none =>
          have hvp := eb_valCheck_pres cfg s1
          rw [hvc] at hvp
          simp only [Prod.fst] at hvp
          simp only [andThen_ok] at h ⊢
          obtain ⟨ihe, ihi⟩ := eb_loopFuel_ok cfg ecfg fuel s2 h
            (by omega) (by omega)
          refine ⟨ihe, ?_⟩
          rw [ihi, hvp.2.1, hi1, hvp.1, he1]
          have hsub : ecfg.max_epochs - s.epoch =
              (ecfg.max_epochs - (s.epoch + 1)) + 1 := by omega
          rw [hsub, Nat.succ_mul]
          omega
    · rw [loopFuel, if_neg hlt] at h ⊢
      have he : s.epoch = ecfg.max_epochs := by omega
      simp [he]

/-- The epoch while-loop never decreases either counter. -/
theorem eb_loopFuel_mono (cfg : Cfg B O V) (ecfg : EpochCfg B) :
    ∀ (fuel : Nat) (s : Runner B O V),
    s.epoch ≤ (loopFuel cfg ecfg fuel s).1.epoch ∧
    s.iter ≤ (loopFuel cfg ecfg fuel s).1.iter
  | 0, s => by simp [loopFuel]
  | fuel + 1, s => by
    by_cases hlt : s.epoch < ecfg.max_epochs
    · rw [loopFuel, if_pos hlt]
      rcases hre : run_epoch cfg ecfg s with ⟨s1, e1⟩
      have hparts := eb_run_epoch_parts cfg ecfg s
      rw [hre] at hparts
      simp only [Prod.fst] at hparts
      obtain ⟨hep, ⟨k, -, hik⟩, -, -⟩ := hparts
      cases e1 with
      | some e1 =>
        simp only [andThen_err]
        constructor
        · rcases hep with hep | hep <;> omega
        · omega
      | none =>
        simp only [andThen_ok]
        rcases hvc : valCheck cfg s1 with ⟨s2, e2⟩
        have hvp := eb_valCheck_pres cfg s1
        rw [hvc] at hvp
        simp only [Prod.fst] at hvp
        cases e2 with
        | some e2 =>
          simp only [andThen_err]
          constructor
          · rcases hep with hep | hep <;> omega
          · omega
        | none =>
          simp only [andThen_ok]
          obtain ⟨ihe, ihi⟩ := eb_loopFuel_mono cfg ecfg fuel s2
          constructor
          · rcases hep with hep | hep <;> omega
          · omega
    · rw [loopFuel, if_neg hlt]
      simp

/-- A completed epoch while-loop emits exactly the expected segment of
hook names. -/
theorem eb_loopFuel_names (cfg : Cfg B O V) (ecfg : EpochCfg B)
    (vl : ValCfg B O V) (hvl : cfg.valLoop = some vl) :
    ∀ (fuel : Nat) (s : Runner B O V),
    (loopFuel cfg ecfg fuel s).2 = none →
    nameTrace (loopFuel cfg ecfg fuel s).1 = nameTrace s ++
      expectedSeg ecfg.batches.length vl.batches.length vl.interval
        ecfg.max_epochs fuel s.epoch
  | 0, s => by simp [loopFuel, expectedSeg]
  | fuel + 1, s => by
    intro h
    by_cases hlt : s.epoch < ecfg.max_epochs
    · rw [loopFuel, if_pos hlt] at h ⊢
      rw [expectedSeg, if_pos hlt]
      rcases hre : run_epoch cfg ecfg s with ⟨s1, e1⟩
      rw [hre] at h
      cases e1 with
      | some e1 => simp at h
      | none =>
        have hok := eb_run_epoch_ok cfg ecfg s (by rw [hre])
        rw [hre] at hok
        simp only [Prod.fst] at hok
        obtain ⟨he1, -, hn1, -⟩ := hok
        simp only [andThen_ok] at h ⊢
        rcases hvc : valCheck cfg s1 with ⟨s2, e2⟩
        rw [hvc] at h
        cases e2 with
        | some e2 => simp at h
        | none =>
          have hvn := eb_valCheck_names_none cfg vl hvl s1 (by rw [hvc])
          rw [hvc] at hvn
          simp only [Prod.fst] at hvn
          have hvp := eb_valCheck_pres cfg s1
          rw [hvc] at hvp
          simp only [Prod.fst] at hvp
          simp only [andThen_ok] at h ⊢
          rw [eb_loopFuel_names cfg ecfg vl hvl fuel s2 h, hvn, hn1,
            hvp.1, he1]
          simp
    · rw [loopFuel, if_neg hlt] at h ⊢
      rw [expectedSeg, if_neg hlt]
      simp

/-- If no remaining 1-based epoch number is divisible by the interval,
a completed epoch while-loop leaves the dataloader pointer alone. -/
theorem eb_loopFuel_curDL_no_trigger (cfg : Cfg B O V) (ecfg : EpochCfg B)
    (vl : ValCfg B O V) (hvl : cfg.valLoop = some vl) :
    ∀ (fuel : Nat) (s : Runner B O V),
    (loopFuel cfg ecfg fuel s).2 = none →
    (∀ e, s.epoch < e → e ≤ ecfg.max_epochs → e % vl.interval ≠ 0) →
    (loopFuel cfg ecfg fuel s).1.curDataloader = s.curDataloader
  | 0, s => by simp [loopFuel]
  | fuel + 1, s => by
    intro h hno
    by_cases hlt : s.epoch < ecfg.max_epochs
    · rw [loopFuel, if_pos hlt] at h ⊢
      rcases hre : run_epoch cfg ecfg s with ⟨s1, e1⟩
      rw [hre] at h
      cases e1 with
      | some e1 => simp at h
      | none =>
        have hok := eb_run_epoch_ok cfg ecfg s (by rw [hre])
        rw [hre] at hok
        simp only [Prod.fst] at hok
        obtain ⟨he1, -, -, hc1⟩ := hok
        simp only [andThen_ok] at h ⊢
        rcases hvc : valCheck cfg s1 with ⟨s2, e2⟩
        rw [hvc] at h
        cases e2 with
        | some e2 => simp at h
        | none =>
          have hvd := eb_valCheck_curDL cfg vl hvl s1
          rw [hvc] at hvd
          simp only [Prod.fst] at hvd
          have hvp := eb_valCheck_pres cfg s1
          rw [hvc] at hvp
          simp only [Prod.fst] at hvp
          simp only [andThen_ok] at h ⊢
          have hnt : s1.epoch % vl.interval ≠ 0 := by
            rw [he1]; exact hno (s.epoch + 1) (by omega) (by omega)
          rw [eb_loopFuel_curDL_no_trigger cfg ecfg vl hvl fuel s2 h
            (fun e he1' he2' => hno e (by omega) he2')]
          rw [hvd, if_neg (by simp [hnt]), hc1]
    · rw [loopFuel, if_neg hlt] at h ⊢

/-- If some remaining 1-based epoch number is divisible by the
interval, a completed epoch while-loop with sufficient fuel leaves the
dataloader pointer at the validation dataloader. -/
theorem eb_loopFuel_curDL_trigger (cfg : Cfg B O V) (ecfg : EpochCfg B)
    (vl : ValCfg B O V) (hvl : cfg.valLoop = some vl) :
    ∀ (fuel : Nat) (s : Runner B O V),
    (loopFuel cfg ecfg fuel s).2 = none →
    ecfg.max_epochs ≤ s.epoch + fuel →
    (∃ e, s.epoch < e ∧ e ≤ ecfg.max_epochs ∧ e % vl.interval = 0) →
    (loopFuel cfg ecfg fuel s).1.curDataloader = some vl.dlId
  | 0, s => by
    intro _ hf ⟨e, he1, he2, _⟩
    omega
  | fuel + 1, s => by
    intro h hf hex
    obtain ⟨e, he1, he2, he3⟩ := hex
    by_cases hlt : s.epoch < ecfg.max_epochs
    · rw [loopFuel, if_pos hlt] at h ⊢
      rcases hre : run_epoch cfg ecfg s with ⟨s1, e1⟩
      rw [hre] at h
      cases e1 with
      | some e1 => simp at h
      | none =>
        have hok := eb_run_epoch_ok cfg ecfg s (by rw [hre])
        rw [hre] at hok
        simp only [Prod.fst] at hok
        obtain ⟨he1', -, -, -⟩ := hok
        simp only [andThen_ok] at h ⊢
        rcases hvc : valCheck cfg s1 with ⟨s2, e2⟩
        rw [hvc] at h
        cases e2 with
        | some e2 => simp at h
        | none =>
          have hvd := eb_valCheck_curDL cfg vl hvl s1
          rw [hvc] at hvd
          simp only [Prod.fst] at hvd
          have hvp := eb_valCheck_pres cfg s1
          rw [hvc] at hvp
          simp only [Prod.fst] at hvp
          have hi0 : vl.interval ≠ 0 :=
            eb_valCheck_none_interval cfg vl hvl s1 (by rw [hvc])
          simp only [andThen_ok] at h ⊢
          by_cases hex2 : ∃ x, s2.epoch < x ∧ x ≤ ecfg.max_epochs ∧
              x % vl.interval = 0
          · exact eb_loopFuel_curDL_trigger cfg ecfg vl hvl fuel s2 h
              (by omega) hex2
          · push_neg at hex2
            have htr : s1.epoch % vl.interval = 0 := by
              by_contra hcon
              have hegt : s2.epoch < e := by
                rw [hvp.1, he1']
                rcases Nat.lt_or_ge (s.epoch + 1) e with hx | hx
                · exact hx
                · exfalso
                  have : e = s.epoch + 1 := by omega
                  rw [this, ← he1'] at he3
                  exact hcon he3
              exact hex2 e hegt he2 he3
            rw [eb_loopFuel_curDL_no_trigger cfg ecfg vl hvl fuel s2 h
              (fun x hx1 hx2 => hex2 x hx1 hx2)]
            rw [hvd, if_pos ⟨hi0, htr⟩]
    · omega

end EpochBasedTrainLoop

/-- The hook calls (with arguments) of a run of training iterations
whose batch indices count up from `i`, when the computation unit
returns `m b` on batch `b`. -/
def ibPairs (m : B → O) : Nat → List B → List (HookCall B O)
  | _, [] => []
  | i, b :: rest =>
    .beforeTrainIter i b :: .afterTrainIter i b (m b) :: ibPairs m (i + 1) rest

/-- The hook calls of a validation pass over the given batches when
the computation unit returns `p b` on batch `b`. -/
def valIterCalls (p : B → O) : Nat → List B → List (HookCall B O)
  | _, [] => []
  | i, b :: rest =>
    .beforeValIter i b :: .afterValIter i b (p b) :: valIterCalls p (i + 1) rest

/-- The `(data_batch, outputs)` pairs fed to `evaluator.process` over a
pass. -/
def processedPairs (p : B → O) (l : List B) : List (B × O) :=
  l.map fun b => (b, p b)

namespace ValLoop

/-- With no raising hook handler and a model that returns on every
batch, `run_iters` appends exactly the validation hook calls and feeds
every batch to the evaluator. -/
theorem val_run_iters_eq (cfg : Cfg B O V) (p : B → O)
    (hH : ∀ h, cfg.hookErr h = none)
    (hm : ∀ b, cfg.model b false = Except.ok (p b)) :
    ∀ (l : List B) (idx : Nat) (s : Runner B O V),
    run_iters cfg idx l s =
      ({ s with trace := s.trace ++ valIterCalls p idx l,
                evalAccum := s.evalAccum ++ processedPairs p l }, none)
  | [], idx, s => by simp [run_iters, valIterCalls, processedPairs]
  | b :: rest, idx, s => by
    have h1 : run_iter cfg idx b s =
        ({ s with trace := s.trace ++ [.beforeValIter idx b, .afterValIter idx b (p b)],
                  evalAccum := s.evalAccum ++ [(b, p b)] }, none) := by
      rcases val_run_iter_spec cfg idx b s with
        ⟨e, hh, heq⟩ | ⟨e, hh, hmm, heq⟩ | ⟨o, hh, hmm, heq⟩
      · rw [hH] at hh; exact absurd hh (by simp)
      · rw [hm] at hmm; exact absurd hmm (by simp)
      · rw [hm] at hmm
        have ho : o = p b := by injection hmm with h2; exact h2.symm
        rw [heq, hH, ho]
    rw [run_iters, h1, andThen_ok,
      val_run_iters_eq cfg p hH hm rest (idx + 1) _]
    simp [valIterCalls, processedPairs]

/-- With no raising hook handler and a returning model, `ValLoop.run`
completes and produces the explicit final state: validation hooks in
order, one `evaluate` call with the dataset sample count, one log
entry per returned metric under `val/<name>`, the counters and stored
outputs untouched. -/
theorem val_run_eq (cfg : Cfg B O V) (vcfg : ValCfg B O V) (p : B → O)
    (hH : ∀ h, cfg.hookErr h = none)
    (hm : ∀ b, cfg.model b false = Except.ok (p b)) (s : Runner B O V) :
    run cfg vcfg s =
      ({ s with
          curDataloader := some vcfg.dlId,
          trainingMode := false,
          trace := s.trace ++ HookCall.beforeVal :: HookCall.beforeValEpoch ::
            (valIterCalls p 0 vcfg.batches ++
              [HookCall.afterValEpoch, HookCall.afterVal]),
          evalAccum := [],
          evalCalls := s.evalCalls ++ [vcfg.datasetLen],
          messageHub := s.messageHub ++
            (vcfg.evaluate (s.evalAccum ++ processedPairs p vcfg.batches)
                vcfg.datasetLen).map
              (fun kv => ("val/" ++ kv.1, kv.2)) }, none) := by
  unfold run
  simp only [callHook, hH, andThen_ok]
  rw [val_run_iters_eq cfg p hH hm vcfg.batches 0 _]
  simp only [andThen_ok, updateLogs, callHook, hH]
  simp [List.append_assoc]

end ValLoop

/-- With returning hooks and a returning model on this batch, a
validation iteration produces its explicit successor state: the result
is handed to the evaluator and to the `after_val_iter` hook, and the
runner's stored outputs are untouched. -/
theorem ValLoop.val_run_iter_eq (cfg : Cfg B O V) (idx : Nat) (b : B) (o : O)
    (hH : ∀ h, cfg.hookErr h = none)
    (hm : cfg.model b false = Except.ok o) (s : Runner B O V) :
    ValLoop.run_iter cfg idx b s =
      ({ s with
          trace := s.trace ++ [.beforeValIter idx b, .afterValIter idx b o],
          evalAccum := s.evalAccum ++ [(b, o)] }, none) := by
  rcases ValLoop.val_run_iter_spec cfg idx b s with
    ⟨e, hh, heq⟩ | ⟨e, hh, hmm, heq⟩ | ⟨o', hh, hmm, heq⟩
  · rw [hH] at hh; exact absurd hh (by simp)
  · rw [hm] at hmm; exact absurd hmm (by simp)
  · rw [hm] at hmm
    have ho : o' = o := by injection hmm with h2; exact h2.symm
    rw [heq, ho, hH]

/-- The hook calls of a test pass over the given batches when the
computation unit returns `p b` on batch `b`. -/
def testIterCalls (p : B → O) : Nat → List B → List (HookCall B O)
  | _, [] => []
  | i, b :: rest =>
    .beforeTestIter i b :: .afterTestIter i b (p b) :: testIterCalls p (i + 1) rest

namespace TestLoop

/-- With returning hooks and a returning model on this batch, a test
iteration produces its explicit successor state. -/
theorem test_run_iter_eq (cfg : Cfg B O V) (idx : Nat) (b : B) (o : O)
    (hH : ∀ h, cfg.hookErr h = none)
    (hm : cfg.model b false = Except.ok o) (s : Runner B O V) :
    run_iter cfg idx b s =
      ({ s with
          trace := s.trace ++ [.beforeTestIter idx b, .afterTestIter idx b o],
          evalAccum := s.evalAccum ++ [(b, o)] }, none) := by
  rcases test_run_iter_spec cfg idx b s with
    ⟨e, hh, heq⟩ | ⟨e, hh, hmm, heq⟩ | ⟨o', hh, hmm, heq⟩
  · rw [hH] at hh; exact absurd hh (by simp)
  · rw [hm] at hmm; exact absurd hmm (by simp)
  · rw [hm] at hmm
    have ho : o' = o := by injection hmm with h2; exact h2.symm
    rw [heq, ho, hH]

theorem test_run_iters_eq (cfg : Cfg B O V) (p : B → O)
    (hH : ∀ h, cfg.hookErr h = none)
    (hm : ∀ b, cfg.model b false = Except.ok (p b)) :
    ∀ (l : List B) (idx : Nat) (s : Runner B O V),
    run_iters cfg idx l s =
      ({ s with trace := s.trace ++ testIterCalls p idx l,
                evalAccum := s.evalAccum ++ processedPairs p l }, none)
  | [], idx, s => by simp [run_iters, testIterCalls, processedPairs]
  | b :: rest, idx, s => by
    rw [run_iters, test_run_iter_eq cfg idx b (p b) hH (hm b) s, andThen_ok,
      test_run_iters_eq cfg p hH hm rest (idx + 1) _]
    simp [testIterCalls, processedPairs]

/-- With no raising hook handler and a returning model, `TestLoop.run`
completes and produces the explicit final state: test hooks in order,
one `evaluate` call with the dataset sample count, one log entry per
returned metric under `test/<name>`, the counters and stored outputs
untouched. -/
theorem test_run_eq (cfg : Cfg B O V) (tcfg : TestCfg B O V) (p : B → O)
    (hH : ∀ h, cfg.hookErr h = none)
    (hm : ∀ b, cfg.model b false = Except.ok (p b)) (s : Runner B O V) :
    run cfg tcfg s =
      ({ s with
          curDataloader := some tcfg.dlId,
          trainingMode := false,
          trace := s.trace ++ HookCall.beforeTest :: HookCall.beforeTestEpoch ::
            (testIterCalls p 0 tcfg.batches ++
              [HookCall.afterTestEpoch, HookCall.afterTest]),
          evalAccum := [],
          evalCalls := s.evalCalls ++ [tcfg.datasetLen],
          messageHub := s.messageHub ++
            (tcfg.evaluate (s.evalAccum ++ processedPairs p tcfg.batches)
                tcfg.datasetLen).map
              (fun kv => ("test/" ++ kv.1, kv.2)) }, none) := by
  unfold run
  simp only [callHook, hH, andThen_ok]
  rw [test_run_iters_eq cfg p hH hm tcfg.batches 0 _]
  simp only [andThen_ok, updateLogs, callHook, hH]
  simp [List.append_assoc]

end TestLoop

namespace EpochBasedTrainLoop

/-- With returning hooks and a returning model on this batch, a
training iteration produces its explicit successor state: the result
is stored on the runner, logged under `train/<key>`, handed to
`after_train_iter`, and only then is `runner._iter` incremented. -/
theorem eb_run_iter_eq (cfg : Cfg B O V) (idx : Nat) (b : B) (o : O)
    (hH : ∀ h, cfg.hookErr h = none)
    (hm : cfg.model b true = Except.ok o) (s : Runner B O V) :
    run_iter cfg idx b s =
      ({ s with
          trace := s.trace ++
            [.beforeTrainIter idx b, .afterTrainIter idx b o],
          outputs := some o,
          messageHub := s.messageHub ++
            (cfg.logVars o).map (fun kv => ("train/" ++ kv.1, kv.2)),
          iter := s.iter + 1 }, none) := by
  rcases eb_run_iter_spec cfg idx b s with
    ⟨e, hh, heq⟩ | ⟨e, hh, hmm, heq⟩ | ⟨o', e, hh, hmm, hha, heq⟩ |
    ⟨o', hh, hmm, hha, heq⟩
  · rw [hH] at hh; exact absurd hh (by simp)
  · rw [hm] at hmm; exact absurd hmm (by simp)
  · rw [hH] at hha; exact absurd hha (by simp)
  · rw [hm] at hmm
    have ho : o' = o := by injection hmm with h2; exact h2.symm
    rw [heq, ho]

end EpochBasedTrainLoop

/-- The `batch_idx` argument of a `before_train_iter` dispatch. -/
def beforeIterIdx {B O : Type} : HookCall B O → Option Nat
  | .beforeTrainIter i _ => some i
  | _ => none

/-- The `batch_idx` argument of an `after_train_iter` dispatch. -/
def afterIterIdx {B O : Type} : HookCall B O → Option Nat
  | .afterTrainIter i _ _ => some i
  | _ => none

theorem ibPairs_beforeIdx (m : B → O) :
    ∀ (l : List B) (i : Nat),
    (ibPairs m i l).filterMap beforeIterIdx = List.range' i l.length
  | [], i => by simp [ibPairs]
  | b :: rest, i => by
    rw [ibPairs]
    simp only [List.filterMap_cons]
    rw [ibPairs_beforeIdx m rest (i + 1)]
    simp [beforeIterIdx, afterIterIdx, List.range'_succ]

theorem ibPairs_afterIdx (m : B → O) :
    ∀ (l : List B) (i : Nat),
    (ibPairs m i l).filterMap afterIterIdx = List.range' i l.length
  | [], i => by simp [ibPairs]
  | b :: rest, i => by
    rw [ibPairs]
    simp only [List.filterMap_cons]
    rw [ibPairs_afterIdx m rest (i + 1)]
    simp [beforeIterIdx, afterIterIdx, List.range'_succ]

namespace IterBasedTrainLoop

/-- With returning hooks and a returning model on this batch,
`run_iter` produces its explicit successor state. -/
theorem ib_run_iter_eq (cfg : Cfg B O V) (b : B) (o : O)
    (hH : ∀ h, cfg.hookErr h = none)
    (hm : cfg.model b true = Except.ok o) (s : Runner B O V) :
    run_iter cfg b s =
      ({ s with
          trace := s.trace ++
            [.beforeTrainIter s.iter b, .afterTrainIter s.iter b o],
          outputs := some o,
          messageHub := s.messageHub ++
            (cfg.logVars o).map (fun kv => ("train/" ++ kv.1, kv.2)),
          iter := s.iter + 1 }, none) := by
  rcases ib_run_iter_spec cfg b s with
    ⟨e, hh, heq⟩ | ⟨e, hh, hmm, heq⟩ | ⟨o', e, hh, hmm, hha, heq⟩ |
    ⟨o', hh, hmm, hha, heq⟩
  · rw [hH] at hh; exact absurd hh (by simp)
  · rw [hm] at hmm; exact absurd hmm (by simp)
  · rw [hH] at hha; exact absurd hha (by simp)
  · rw [hm] at hmm
    have ho : o' = o := by injection hmm with h2; exact h2.symm
    rw [heq, ho]

/-- The post-iteration validation check never writes the counters or
the stored outputs. -/
theorem ib_valCheck_pres (cfg : Cfg B O V) (s : Runner B O V) :
    (valCheck cfg s).1.epoch = s.epoch ∧
    (valCheck cfg s).1.iter = s.iter ∧
    (valCheck cfg s).1.outputs = s.outputs := by
  unfold valCheck
  cases hv : cfg.valLoop with
  | none => simp
  | some vl =>
    by_cases h0 : vl.interval = 0
    · simp [h0]
    · by_cases ht : s.iter % vl.interval = 0
      · simp only [h0, ht, if_true, if_false]
        exact ValLoop.val_run_pres cfg vl s
      · simp [h0, ht]

/-- Where the post-iteration validation check leaves the
active-dataloader pointer. -/
theorem ib_valCheck_curDL (cfg : Cfg B O V) (vl : ValCfg B O V)
    (hvl : cfg.valLoop = some vl) (s : Runner B O V) :
    (valCheck cfg s).1.curDataloader =
      if vl.interval ≠ 0 ∧ s.iter % vl.interval = 0 then some vl.dlId
      else s.curDataloader := by
  unfold valCheck
  rw [hvl]
  by_cases h0 : vl.interval = 0
  · simp [h0]
  · by_cases ht : s.iter % vl.interval = 0
    · simp only [h0, ht, if_true, if_false, ne_eq, not_false_iff, and_self]
      exact ValLoop.val_run_curDL cfg vl s
    · simp [h0, ht]

/-- If the validation check returned rather than raising and a
validation loop is configured, its interval was nonzero. -/
theorem ib_valCheck_none_interval (cfg : Cfg B O V) (vl : ValCfg B O V)
    (hvl : cfg.valLoop = some vl) (s : Runner B O V)
    (h : (valCheck cfg s).2 = none) : vl.interval ≠ 0 := by
  intro h0
  simp only [valCheck, hvl] at h
  rw [if_pos h0] at h
  simp at h

/-- With returning hooks, a returning model and a well-formed optional
validation loop, the validation check returns. -/
theorem ib_valCheck_ok_err (cfg : Cfg B O V)
    (hH : ∀ h, cfg.hookErr h = none)
    (hm : ∀ b, ∃ o, cfg.model b false = Except.ok o)
    (hvi : ∀ vl, cfg.valLoop = some vl → vl.interval ≠ 0)
    (s : Runner B O V) : (valCheck cfg s).2 = none := by
  unfold valCheck
  cases hv : cfg.valLoop with
  | none => rfl
  | some vl =>
    show (if vl.interval = 0 then ((s, some Err.zeroDivision) : Res B O V)
      else if s.iter % vl.interval = 0 then ValLoop.run cfg vl s
      else (s, none)).2 = none
    rw [if_neg (hvi vl hv)]
    by_cases ht : s.iter % vl.interval = 0
    · rw [if_pos ht]
      classical
      obtain ⟨p, hp⟩ := Classical.axiomOfChoice hm
      rw [ValLoop.val_run_eq cfg vl p hH hp s]
    · rw [if_neg ht]

/-- Reduction of the validation check when no validation loop is
configured. -/
theorem ib_valCheck_none_eq (cfg : Cfg B O V) (hv : cfg.valLoop = none)
    (s : Runner B O V) : valCheck cfg s = (s, none) := by
  unfold valCheck
  rw [hv]

/-- With returning hooks, a returning model, no validation loop, and
exactly enough batches, the iteration while-loop completes, drives
`runner._iter` to `max_iters`, and emits one hook pair per batch whose
`batch_idx` is the running global iteration counter. -/
theorem ib_loopFuel_run_eq (cfg : Cfg B O V) (icfg : IterCfg B) (m : B → O)
    (hH : ∀ h, cfg.hookErr h = none)
    (hm : ∀ b, cfg.model b true = Except.ok (m b))
    (hv : cfg.valLoop = none) :
    ∀ (fuel : Nat) (cursor : List B) (s : Runner B O V),
    s.iter + fuel = icfg.max_iters → fuel ≤ cursor.length →
    (loopFuel cfg icfg fuel cursor s).2 = none ∧
    (loopFuel cfg icfg fuel cursor s).1.iter = icfg.max_iters ∧
    (loopFuel cfg icfg fuel cursor s).1.trace =
      s.trace ++ ibPairs m s.iter (cursor.take fuel)
  | 0, cursor, s => by
    intro ha _
    refine ⟨rfl, ?_, ?_⟩
    · simp only [loopFuel]
      omega
    · simp [loopFuel, ibPairs]
  | fuel + 1, cursor, s => by
    intro ha hlen
    have hguard : s.iter < icfg.max_iters := by omega
    cases cursor with
    | nil => simp at hlen
    | cons b rest =>
      simp only [loopFuel, if_pos hguard]
      rw [ib_run_iter_eq cfg b (m b) hH (hm b) _, andThen_ok,
        ib_valCheck_none_eq cfg hv _, andThen_ok]
      obtain ⟨ih1, ih2, ih3⟩ := ib_loopFuel_run_eq cfg icfg m hH hm hv fuel rest
        ({ s with trainingMode := true,
                  trace := s.trace ++
                    [.beforeTrainIter s.iter b, .afterTrainIter s.iter b (m b)],
                  outputs := some (m b),
                  messageHub := s.messageHub ++
                    (cfg.logVars (m b)).map (fun kv => ("train/" ++ kv.1, kv.2)),
                  iter := s.iter + 1 })
        (by simp; omega) (by simpa using hlen)
      refine ⟨ih1, by simpa using ih2, ?_⟩
      rw [ih3]
      simp [ibPairs, List.take_succ_cons]

/-- With returning hooks, a returning model and a well-formed optional
validation loop, a while-loop whose remaining demand exceeds the
cursor's supply processes every available batch and then raises
`StopIteration` at the next draw. -/
theorem ib_loopFuel_exhaust (cfg : Cfg B O V) (icfg : IterCfg B)
    (m : B → Bool → O)
    (hH : ∀ h, cfg.hookErr h = none)
    (hm : ∀ b r, cfg.model b r = Except.ok (m b r))
    (hvi : ∀ vl, cfg.valLoop = some vl → vl.interval ≠ 0) :
    ∀ (fuel : Nat) (cursor : List B) (s : Runner B O V),
    cursor.length < fuel → s.iter + fuel = icfg.max_iters →
    (loopFuel cfg icfg fuel cursor s).2 = some Err.stopIteration ∧
    (loopFuel cfg icfg fuel cursor s).1.iter = s.iter + cursor.length
  | 0, cursor, s => by omega
  | fuel + 1, cursor, s => by
    intro hlen ha
    have hguard : s.iter < icfg.max_iters := by omega
    cases cursor with
    | nil => simp [loopFuel, if_pos hguard]
    | cons b rest =>
      simp only [loopFuel, if_pos hguard]
      rw [ib_run_iter_eq cfg b (m b true) hH (hm b true) _, andThen_ok]
      set s1 : Runner B O V :=
        { s with trainingMode := true,
                 trace := s.trace ++
                   [.beforeTrainIter s.iter b,
                     .afterTrainIter s.iter b (m b true)],
                 outputs := some (m b true),
                 messageHub := s.messageHub ++
                   (cfg.logVars (m b true)).map
                     (fun kv => ("train/" ++ kv.1, kv.2)),
                 iter := s.iter + 1 } with hs1
      rcases hvc : valCheck cfg s1 with ⟨s2, e2⟩
      have hverr := ib_valCheck_ok_err cfg hH (fun b => ⟨m b false, hm b false⟩)
        hvi s1
      rw [hvc] at hverr
      simp only [Prod.snd] at hverr
      subst hverr
      have hvp := ib_valCheck_pres cfg s1
      rw [hvc] at hvp
      simp only [Prod.fst] at hvp
      have hs2 : s2.iter = s.iter + 1 := by
        rw [hvp.2.1]
      simp only [andThen_ok]
      obtain ⟨ih1, ih2⟩ := ib_loopFuel_exhaust cfg icfg m hH hm hvi fuel rest s2
        (by simpa using hlen) (by omega)
      refine ⟨ih1, ?_⟩
      rw [ih2, hs2]
      simp
      omega

/-- The iteration while-loop never decreases either counter. -/
theorem ib_loopFuel_mono (cfg : Cfg B O V) (icfg : IterCfg B) :
    ∀ (fuel : Nat) (cursor : List B) (s : Runner B O V),
    s.epoch ≤ (loopFuel cfg icfg fuel cursor s).1.epoch ∧
    s.iter ≤ (loopFuel cfg icfg fuel cursor s).1.iter
  | 0, _, s => by simp [loopFuel]
  | fuel + 1, cursor, s => by
    by_cases hguard : s.iter < icfg.max_iters
    · cases cursor with
      | nil => simp [loopFuel, if_pos hguard]
      | cons b rest =>
        simp only [loopFuel, if_pos hguard]
        rcases hri : run_iter cfg b { s with trainingMode := true } with ⟨s1, e1⟩
        have hie := ib_run_iter_epoch cfg b { s with trainingMode := true }
        have hil := ib_run_iter_iter_le cfg b { s with trainingMode := true }
        rw [hri] at hie hil
        simp only [Prod.fst] at hie hil
        cases e1 with
        | some e1 =>
          simp only [andThen_err]
          constructor
          · rw [hie]
          · exact hil.1
        | none =>
          simp only [andThen_ok]
          rcases hvc : valCheck cfg s1 with ⟨s2, e2⟩
          have hvp := ib_valCheck_pres cfg s1
          rw [hvc] at hvp
          simp only [Prod.fst] at hvp
          cases e2 with
          | some e2 =>
            simp only [andThen_err]
            constructor
            · rw [hvp.1, hie]
            · rw [hvp.2.1]; exact hil.1
          | none =>
            simp only [andThen_ok]
            obtain ⟨ihe, ihi⟩ := ib_loopFuel_mono cfg icfg fuel rest s2
            constructor
            · omega
            · omega
    · simp [loopFuel, if_neg hguard]

/-- If no remaining iteration number is divisible by the interval, a
completed iteration while-loop leaves the dataloader pointer alone. -/
theorem ib_loopFuel_curDL_no_trigger (cfg : Cfg B O V) (icfg : IterCfg B)
    (vl : ValCfg B O V) (hvl : cfg.valLoop = some vl) :
    ∀ (fuel : Nat) (cursor : List B) (s : Runner B O V),
    (loopFuel cfg icfg fuel cursor s).2 = none →
    (∀ i, s.iter < i → i ≤ icfg.max_iters → i % vl.interval ≠ 0) →
    (loopFuel cfg icfg fuel cursor s).1.curDataloader = s.curDataloader
  | 0, _, s => by simp [loopFuel]
  | fuel + 1, cursor, s => by
    intro h hno
    by_cases hguard : s.iter < icfg.max_iters
    · cases cursor with
      | nil => simp [loopFuel, if_pos hguard] at h
      | cons b rest =>
        simp only [loopFuel, if_pos hguard] at h ⊢
        rcases hri : run_iter cfg b { s with trainingMode := true } with ⟨s1, e1⟩
        rw [hri] at h
        cases e1 with
        | some e1 => simp at h
        | none =>
          have hi1 := ib_run_iter_iter_none cfg b { s with trainingMode := true }
            (by rw [hri])
          have hc1 := ib_run_iter_curDL cfg b { s with trainingMode := true }
          rw [hri] at hi1 hc1
          simp only [Prod.fst] at hi1 hc1
          simp only [andThen_ok] at h ⊢
          rcases hvc : valCheck cfg s1 with ⟨s2, e2⟩
          rw [hvc] at h
          cases e2 with
          | some e2 => simp at h
          | none =>
            have hvd := ib_valCheck_curDL cfg vl hvl s1
            rw [hvc] at hvd
            simp only [Prod.fst] at hvd
            have hvp := ib_valCheck_pres cfg s1
            rw [hvc] at hvp
            simp only [Prod.fst] at hvp
            simp only [andThen_ok] at h ⊢
            have hnt : s1.iter % vl.interval ≠ 0 := by
              rw [hi1]
              exact hno (s.iter + 1) (by omega) (by omega)
            rw [ib_loopFuel_curDL_no_trigger cfg icfg vl hvl fuel rest s2 h
              (fun i hi1' hi2' => hno i (by omega) hi2')]
            rw [hvd, if_neg (by simp [hnt]), hc1]
    · simp [loopFuel, if_neg hguard]

/-- If some remaining iteration number is divisible by the interval, a
completed iteration while-loop with sufficient fuel leaves the
dataloader pointer at the validation dataloader. -/
theorem ib_loopFuel_curDL_trigger (cfg : Cfg B O V) (icfg : IterCfg B)
    (vl : ValCfg B O V) (hvl : cfg.valLoop = some vl) :
    ∀ (fuel : Nat) (cursor : List B) (s : Runner B O V),
    (loopFuel cfg icfg fuel cursor s).2 = none →
    icfg.max_iters ≤ s.iter + fuel →
    (∃ i, s.iter < i ∧ i ≤ icfg.max_iters ∧ i % vl.interval = 0) →
    (loopFuel cfg icfg fuel cursor s).1.curDataloader = some vl.dlId
  | 0, _, s => by
    intro _ hf ⟨i, hi1, hi2, _⟩
    omega
  | fuel + 1, cursor, s => by
    intro h hf hex
    obtain ⟨i, hi1, hi2, hi3⟩ := hex
    by_cases hguard : s.iter < icfg.max_iters
    · cases cursor with
      | nil => simp [loopFuel, if_pos hguard] at h
      | cons b rest =>
        simp only [loopFuel, if_pos hguard] at h ⊢
        rcases hri : run_iter cfg b { s with trainingMode := true } with ⟨s1, e1⟩
        rw [hri] at h
        cases e1 with
        | some e1 => simp at h
        | none =>
          have hit1 := ib_run_iter_iter_none cfg b { s with trainingMode := true }
            (by rw [hri])
          rw [hri] at hit1
          simp only [Prod.fst] at hit1
          simp only [andThen_ok] at h ⊢
          rcases hvc : valCheck cfg s1 with ⟨s2, e2⟩
          rw [hvc] at h
          cases e2 with
          | some e2 => simp at h
          | none =>
            have hvd := ib_valCheck_curDL cfg vl hvl s1
            rw [hvc] at hvd
            simp only [Prod.fst] at hvd
            have hvp := ib_valCheck_pres cfg s1
            rw [hvc] at hvp
            simp only [Prod.fst] at hvp
            have hi0 : vl.interval ≠ 0 :=
              ib_valCheck_none_interval cfg vl hvl s1 (by rw [hvc])
            simp only [andThen_ok] at h ⊢
            by_cases hex2 : ∃ x, s2.iter < x ∧ x ≤ icfg.max_iters ∧
                x % vl.interval = 0
            · exact ib_loopFuel_curDL_trigger cfg icfg vl hvl fuel rest s2 h
                (by omega) hex2
            · push_neg at hex2
              have htr : s1.iter % vl.interval = 0 := by
                by_contra hcon
                have hgt : s2.iter < i := by
                  rw [hvp.2.1, hit1]
                  rcases Nat.lt_or_ge (s.iter + 1) i with hx | hx
                  · exact hx
                  · exfalso
                    have hieq : i = s.iter + 1 := by omega
                    rw [hieq, ← hit1] at hi3
                    exact hcon hi3
                exact hex2 i hgt hi2 hi3
              rw [ib_loopFuel_curDL_no_trigger cfg icfg vl hvl fuel rest s2 h
                (fun x hx1 hx2 => hex2 x hx1 hx2)]
              rw [hvd, if_pos ⟨hi0, htr⟩]
    · omega

end IterBasedTrainLoop

namespace EpochBasedTrainLoop

/-- `EpochBasedTrainLoop.run` never decreases either counter. -/
theorem eb_run_mono (cfg : Cfg B O V) (ecfg : EpochCfg B) (s : Runner B O V) :
    s.epoch ≤ (run cfg ecfg s).1.epoch ∧
    s.iter ≤ (run cfg ecfg s).1.iter := by
  unfold run
  rcases h1 : cfg.hookErr HookCall.beforeTrain with _ | e1 <;>
    simp only [callHook, h1, andThen_ok, andThen_err]
  case some => simp
  rcases hlf : loopFuel cfg ecfg
      (ecfg.max_epochs -
        ({ s with curDataloader := some ecfg.dlId,
                  trace := s.trace ++ [HookCall.beforeTrain] } : Runner B O V).epoch)
      { s with curDataloader := some ecfg.dlId,
               trace := s.trace ++ [HookCall.beforeTrain] } with ⟨s2, e2⟩
  have hm := eb_loopFuel_mono cfg ecfg
    (ecfg.max_epochs -
      ({ s with curDataloader := some ecfg.dlId,
                trace := s.trace ++ [HookCall.beforeTrain] } : Runner B O V).epoch)
    { s with curDataloader := some ecfg.dlId,
             trace := s.trace ++ [HookCall.beforeTrain] }
  rw [hlf] at hm
  simp only [Prod.fst] at hm
  cases e2 with
  | some e2 =>
    simp only [andThen_err]
    exact ⟨hm.1, hm.2⟩
  | none =>
    simp only [andThen_ok, callHook]
    exact ⟨hm.1, hm.2⟩

end EpochBasedTrainLoop

namespace IterBasedTrainLoop

/-- `IterBasedTrainLoop.run` never decreases either counter. -/
theorem ib_run_mono (cfg : Cfg B O V) (icfg : IterCfg B) (s : Runner B O V) :
    s.epoch ≤ (run cfg icfg s).1.epoch ∧
    s.iter ≤ (run cfg icfg s).1.iter := by
  unfold run
  rcases h1 : cfg.hookErr HookCall.beforeTrain with _ | e1 <;>
    simp only [callHook, h1, andThen_ok, andThen_err]
  case some => simp
  rcases h2 : cfg.hookErr HookCall.beforeTrainEpoch with _ | e2 <;>
    simp only [callHook, h2, andThen_ok, andThen_err]
  case some => simp
  rcases hlf : loopFuel cfg icfg
      (icfg.max_iters -
        ({ s with curDataloader := some icfg.dlId,
                  trace := (s.trace ++ [HookCall.beforeTrain]) ++
                    [HookCall.beforeTrainEpoch] } : Runner B O V).iter)
      icfg.batches
      { s with curDataloader := some icfg.dlId,
               trace := (s.trace ++ [HookCall.beforeTrain]) ++
                 [HookCall.beforeTrainEpoch] } with ⟨s2, e2⟩
  have hm := ib_loopFuel_mono cfg icfg
    (icfg.max_iters -
      ({ s with curDataloader := some icfg.dlId,
                trace := (s.trace ++ [HookCall.beforeTrain]) ++
                  [HookCall.beforeTrainEpoch] } : Runner B O V).iter)
    icfg.batches
    { s with curDataloader := some icfg.dlId,
             trace := (s.trace ++ [HookCall.beforeTrain]) ++
               [HookCall.beforeTrainEpoch] }
  rw [hlf] at hm
  simp only [Prod.fst] at hm
  cases e2 with
  | some e2 =>
    simp only [andThen_err]
    exact ⟨hm.1, hm.2⟩
  | none =>
    simp only [andThen_ok, callHook]
    rcases h3 : cfg.hookErr HookCall.afterTrainEpoch with _ | e3 <;>
      simp only [h3, andThen_ok, andThen_err, callHook] <;>
      exact ⟨hm.1, hm.2⟩

end IterBasedTrainLoop

/-- C3: over every loop operation, `context.epoch` and
`context.iteration` are monotonically non-decreasing, and each training
batch processed to completion — by either `EpochBasedTrainLoop` or
`IterBasedTrainLoop` — increases `context.iteration` by exactly one. -/
theorem c3_counters_monotone (cfg : Cfg B O V) (ecfg : EpochCfg B)
    (icfg : IterCfg B) (vcfg : ValCfg B O V) (tcfg : TestCfg B O V)
    (idx : Nat) (b : B) (s : Runner B O V) :
    (s.epoch ≤ (EpochBasedTrainLoop.run cfg ecfg s).1.epoch ∧
      s.iter ≤ (EpochBasedTrainLoop.run cfg ecfg s).1.iter) ∧
    (s.epoch ≤ (IterBasedTrainLoop.run cfg icfg s).1.epoch ∧
      s.iter ≤ (IterBasedTrainLoop.run cfg icfg s).1.iter) ∧
    (s.epoch ≤ (ValLoop.run cfg vcfg s).1.epoch ∧
      s.iter ≤ (ValLoop.run cfg vcfg s).1.iter) ∧
    (s.epoch ≤ (TestLoop.run cfg tcfg s).1.epoch ∧
      s.iter ≤ (TestLoop.run cfg tcfg s).1.iter) ∧
    ((EpochBasedTrainLoop.run_iter cfg idx b s).2 = none →
      (EpochBasedTrainLoop.run_iter cfg idx b s).1.iter = s.iter + 1) ∧
    ((IterBasedTrainLoop.run_iter cfg b s).2 = none →
      (IterBasedTrainLoop.run_iter cfg b s).1.iter = s.iter + 1) := by
  refine ⟨EpochBasedTrainLoop.eb_run_mono cfg ecfg s,
    IterBasedTrainLoop.ib_run_mono cfg icfg s, ?_, ?_,
    EpochBasedTrainLoop.eb_run_iter_iter_none cfg idx b s,
    IterBasedTrainLoop.ib_run_iter_iter_none cfg b s⟩
  · obtain ⟨he, hi, -⟩ := ValLoop.val_run_pres cfg vcfg s
    exact ⟨le_of_eq he.symm, le_of_eq hi.symm⟩
  · obtain ⟨he, hi, -⟩ := TestLoop.test_run_pres cfg tcfg s
    exact ⟨le_of_eq he.symm, le_of_eq hi.symm⟩

/-- C4: `ValLoop.run()` and `TestLoop.run()` leave `context.epoch` and
`context.iteration` exactly as they found them, whether they complete
or raise, so a train loop that invokes the nested validation loop
resumes with both counters untouched. -/
theorem c4_val_test_preserve_counters (cfg : Cfg B O V)
    (vcfg : ValCfg B O V) (tcfg : TestCfg B O V) (s : Runner B O V) :
    (ValLoop.run cfg vcfg s).1.epoch = s.epoch ∧
    (ValLoop.run cfg vcfg s).1.iter = s.iter ∧
    (TestLoop.run cfg tcfg s).1.epoch = s.epoch ∧
    (TestLoop.run cfg tcfg s).1.iter = s.iter := by
  obtain ⟨hve, hvi, -⟩ := ValLoop.val_run_pres cfg vcfg s
  obtain ⟨hte, hti, -⟩ := TestLoop.test_run_pres cfg tcfg s
  exact ⟨hve, hvi, hte, hti⟩

/-- C1: for every configuration with the context's epoch and iteration
counters starting at 0 and a fixed-length data source, a completed
`EpochBasedTrainLoop.run()` leaves the context with
`epoch = maxEpochs` and `iteration = maxEpochs * length(dataSource)`
(the product precomputed as `max_iters` at construction). -/
theorem c1_epoch_run_final_counters (cfg : Cfg B O V) (ecfg : EpochCfg B)
    (s : Runner B O V) (hE : s.epoch = 0) (hI : s.iter = 0)
    (h : (EpochBasedTrainLoop.run cfg ecfg s).2 = none) :
    (EpochBasedTrainLoop.run cfg ecfg s).1.epoch = ecfg.max_epochs ∧
    (EpochBasedTrainLoop.run cfg ecfg s).1.iter =
      ecfg.max_epochs * ecfg.batches.length ∧
    (EpochBasedTrainLoop.run cfg ecfg s).1.iter =
      EpochBasedTrainLoop.max_iters ecfg := by
  unfold EpochBasedTrainLoop.run at h ⊢
  rcases h1 : cfg.hookErr HookCall.beforeTrain with _ | e1
  case some => simp [callHook, h1] at h
  simp only [callHook, h1, andThen_ok] at h ⊢
  rcases hlf : EpochBasedTrainLoop.loopFuel cfg ecfg
      (ecfg.max_epochs -
        ({ s with curDataloader := some ecfg.dlId,
                  trace := s.trace ++ [HookCall.beforeTrain] } : Runner B O V).epoch)
      { s with curDataloader := some ecfg.dlId,
               trace := s.trace ++ [HookCall.beforeTrain] } with ⟨s2, e2⟩
  rw [hlf] at h
  cases e2 with
  | some e2 => simp at h
  | none =>
    have hok := EpochBasedTrainLoop.eb_loopFuel_ok cfg ecfg
      (ecfg.max_epochs -
        ({ s with curDataloader := some ecfg.dlId,
                  trace := s.trace ++ [HookCall.beforeTrain] } : Runner B O V).epoch)
      { s with curDataloader := some ecfg.dlId,
               trace := s.trace ++ [HookCall.beforeTrain] }
      (by rw [hlf]) (by simp [hE]) (by simp [hE])
    rw [hlf] at hok
    simp only [Prod.fst] at hok
    simp only [hE, hI] at hok
    simp only [andThen_ok, callHook]
    have h2 := hok.2
    simp at h2
    refine ⟨by simpa using hok.1, by simpa using h2, ?_⟩
    simp only [EpochBasedTrainLoop.max_iters]
    simpa using h2

/-- C2: a completed `EpochBasedTrainLoop.run()` dispatches exactly one
`before_train`, then per epoch one `before_train_epoch`, one
`before_train_iter`/`after_train_iter` pair per batch in batch order
and one `after_train_epoch`, with the full validation hook sequence
inserted atomically immediately after the `after_train_epoch` of every
epoch whose 1-based number is divisible by `interval`, then one
`after_train`; `interval == 1` inserts validation after every epoch and
`interval > maxEpochs` inserts it zero times. -/
theorem c2_epoch_hook_sequence (cfg : Cfg B O V) (ecfg : EpochCfg B)
    (vl : ValCfg B O V) (hvl : cfg.valLoop = some vl)
    (s : Runner B O V) (hE : s.epoch = 0)
    (h : (EpochBasedTrainLoop.run cfg ecfg s).2 = none) :
    nameTrace (EpochBasedTrainLoop.run cfg ecfg s).1 =
      nameTrace s ++ "before_train" ::
        (expectedSeg ecfg.batches.length vl.batches.length vl.interval
            ecfg.max_epochs ecfg.max_epochs 0 ++ ["after_train"]) ∧
    (ecfg.max_epochs < vl.interval →
      expectedSeg ecfg.batches.length vl.batches.length vl.interval
          ecfg.max_epochs ecfg.max_epochs 0 =
        pureSeg ecfg.batches.length ecfg.max_epochs ecfg.max_epochs 0) ∧
    (vl.interval = 1 →
      expectedSeg ecfg.batches.length vl.batches.length vl.interval
          ecfg.max_epochs ecfg.max_epochs 0 =
        everySeg ecfg.batches.length vl.batches.length ecfg.max_epochs
          ecfg.max_epochs 0) := by
  refine ⟨?_, fun hgt => expectedSeg_no_val _ _ _ _ hgt _ _,
    fun h1 => by rw [h1]; exact expectedSeg_every _ _ _ _ _⟩
  unfold EpochBasedTrainLoop.run at h ⊢
  rcases h1 : cfg.hookErr HookCall.beforeTrain with _ | e1
  case some => simp [callHook, h1] at h
  simp only [callHook, h1, andThen_ok] at h ⊢
  rcases hlf : EpochBasedTrainLoop.loopFuel cfg ecfg
      (ecfg.max_epochs -
        ({ s with curDataloader := some ecfg.dlId,
                  trace := s.trace ++ [HookCall.beforeTrain] } : Runner B O V).epoch)
      { s with curDataloader := some ecfg.dlId,
               trace := s.trace ++ [HookCall.beforeTrain] } with ⟨s2, e2⟩
  rw [hlf] at h
  cases e2 with
  | some e2 => simp at h
  | none =>
    have hnm := EpochBasedTrainLoop.eb_loopFuel_names cfg ecfg vl hvl
      (ecfg.max_epochs -
        ({ s with curDataloader := some ecfg.dlId,
                  trace := s.trace ++ [HookCall.beforeTrain] } : Runner B O V).epoch)
      { s with curDataloader := some ecfg.dlId,
               trace := s.trace ++ [HookCall.beforeTrain] }
      (by rw [hlf])
    rw [hlf] at hnm
    simp only [Prod.fst] at hnm
    simp [hE, nameTrace, hookName] at hnm
    simp only [andThen_ok, callHook]
    simp only [nameTrace] at hnm ⊢
    simp [hnm, hookName]

/-- C5: running `IterBasedTrainLoop` with `maxIterations = 5` over a
one-shot data source of exactly 5 batches, from `iteration = 0`,
completes without error and fires exactly 5
`before_train_iter`/`after_train_iter` pairs whose `batch_idx`
arguments are the running global iteration counter `0,1,2,3,4`. -/
theorem c5_iter_run_five_batches (cfg : Cfg B O V) (icfg : IterCfg B)
    (m : B → O) (s : Runner B O V)
    (hH : ∀ h, cfg.hookErr h = none)
    (hm : ∀ b, cfg.model b true = Except.ok (m b))
    (hv : cfg.valLoop = none)
    (hmi : icfg.max_iters = 5) (hlen : icfg.batches.length = 5)
    (hI : s.iter = 0) :
    (IterBasedTrainLoop.run cfg icfg s).2 = none ∧
    (IterBasedTrainLoop.run cfg icfg s).1.iter = 5 ∧
    (IterBasedTrainLoop.run cfg icfg s).1.trace =
      s.trace ++ HookCall.beforeTrain :: HookCall.beforeTrainEpoch ::
        (ibPairs m 0 icfg.batches ++
          [HookCall.afterTrainEpoch, HookCall.afterTrain]) ∧
    (ibPairs m 0 icfg.batches).filterMap beforeIterIdx = [0, 1, 2, 3, 4] ∧
    (ibPairs m 0 icfg.batches).filterMap afterIterIdx = [0, 1, 2, 3, 4] := by
  have hseq1 : (ibPairs m 0 icfg.batches).filterMap beforeIterIdx =
      [0, 1, 2, 3, 4] := by
    rw [ibPairs_beforeIdx m icfg.batches 0, hlen]
    rfl
  have hseq2 : (ibPairs m 0 icfg.batches).filterMap afterIterIdx =
      [0, 1, 2, 3, 4] := by
    rw [ibPairs_afterIdx m icfg.batches 0, hlen]
    rfl
  unfold IterBasedTrainLoop.run
  simp only [callHook, hH, andThen_ok]
  obtain ⟨h1, h2, h3⟩ := IterBasedTrainLoop.ib_loopFuel_run_eq cfg icfg m hH hm hv
    (icfg.max_iters -
      ({ s with curDataloader := some icfg.dlId,
                trace := (s.trace ++ [HookCall.beforeTrain]) ++
                  [HookCall.beforeTrainEpoch] } : Runner B O V).iter)
    icfg.batches
    { s with curDataloader := some icfg.dlId,
             trace := (s.trace ++ [HookCall.beforeTrain]) ++
               [HookCall.beforeTrainEpoch] }
    (by simp [hI]) (by simp [hI, hmi, hlen])
  rcases hlf : IterBasedTrainLoop.loopFuel cfg icfg
      (icfg.max_iters -
        ({ s with curDataloader := some icfg.dlId,
                  trace := (s.trace ++ [HookCall.beforeTrain]) ++
                    [HookCall.beforeTrainEpoch] } : Runner B O V).iter)
      icfg.batches
      { s with curDataloader := some icfg.dlId,
               trace := (s.trace ++ [HookCall.beforeTrain]) ++
                 [HookCall.beforeTrainEpoch] } with ⟨s2, e2⟩
  rw [hlf] at h1 h2 h3
  simp only [Prod.fst, Prod.snd] at h1 h2 h3
  subst h1
  simp only [andThen_ok, callHook, hH]
  have htake : icfg.batches.take icfg.max_iters = icfg.batches :=
    List.take_of_length_le (by omega)
  refine ⟨by simp, by simp [h2, hmi], ?_, hseq1, hseq2⟩
  simp only [h3]
  simp [htake, hI]

/-- C6: for every `IterBasedTrainLoop` whose `maxIterations` exceeds
the number of batches its one-shot cursor can produce, `run()` fails
with `StopIteration` at the draw past the last available batch, after
processing exactly the available batches — it neither stops early
silently nor recycles the source. -/
theorem c6_iter_run_exhaustion (cfg : Cfg B O V) (icfg : IterCfg B)
    (m : B → Bool → O) (s : Runner B O V)
    (hH : ∀ h, cfg.hookErr h = none)
    (hm : ∀ b r, cfg.model b r = Except.ok (m b r))
    (hvi : ∀ vl, cfg.valLoop = some vl → 0 < vl.interval)
    (hlen : icfg.batches.length < icfg.max_iters) (hI : s.iter = 0) :
    (IterBasedTrainLoop.run cfg icfg s).2 = some Err.stopIteration ∧
    (IterBasedTrainLoop.run cfg icfg s).1.iter = icfg.batches.length := by
  unfold IterBasedTrainLoop.run
  simp only [callHook, hH, andThen_ok]
  obtain ⟨h1, h2⟩ := IterBasedTrainLoop.ib_loopFuel_exhaust cfg icfg m hH hm
    (fun vl hv => (hvi vl hv).ne')
    (icfg.max_iters -
      ({ s with curDataloader := some icfg.dlId,
                trace := (s.trace ++ [HookCall.beforeTrain]) ++
                  [HookCall.beforeTrainEpoch] } : Runner B O V).iter)
    icfg.batches
    { s with curDataloader := some icfg.dlId,
             trace := (s.trace ++ [HookCall.beforeTrain]) ++
               [HookCall.beforeTrainEpoch] }
    (by simp [hI]; omega) (by simp [hI])
  rcases hlf : IterBasedTrainLoop.loopFuel cfg icfg
      (icfg.max_iters -
        ({ s with curDataloader := some icfg.dlId,
                  trace := (s.trace ++ [HookCall.beforeTrain]) ++
                    [HookCall.beforeTrainEpoch] } : Runner B O V).iter)
      icfg.batches
      { s with curDataloader := some icfg.dlId,
               trace := (s.trace ++ [HookCall.beforeTrain]) ++
                 [HookCall.beforeTrainEpoch] } with ⟨s2, e2⟩
  rw [hlf] at h1 h2
  simp only [Prod.fst, Prod.snd] at h1 h2
  subst h1
  simp only [andThen_err]
  refine ⟨by simp, ?_⟩
  simp [h2, hI]

/-- C7: a raising hook handler or computation unit aborts the
iteration with the error unmodified; `runner._iter` is incremented only
after `after_train_iter` returns, so after an abort it equals the
number of fully completed iterations, and log entries of completed
iterations are left as-is. -/
theorem c7_failure_semantics (cfg : Cfg B O V) (idx idx0 : Nat) (b : B)
    (l : List B) (s : Runner B O V) :
    ((EpochBasedTrainLoop.run_iter cfg idx b s).2 = none →
      (EpochBasedTrainLoop.run_iter cfg idx b s).1.iter = s.iter + 1) ∧
    ((EpochBasedTrainLoop.run_iter cfg idx b s).2 ≠ none →
      (EpochBasedTrainLoop.run_iter cfg idx b s).1.iter = s.iter) ∧
    ((IterBasedTrainLoop.run_iter cfg b s).2 = none →
      (IterBasedTrainLoop.run_iter cfg b s).1.iter = s.iter + 1) ∧
    ((IterBasedTrainLoop.run_iter cfg b s).2 ≠ none →
      (IterBasedTrainLoop.run_iter cfg b s).1.iter = s.iter) ∧
    (∃ t, (EpochBasedTrainLoop.run_iter cfg idx b s).1.messageHub =
      s.messageHub ++ t) ∧
    (∃ t, (IterBasedTrainLoop.run_iter cfg b s).1.messageHub =
      s.messageHub ++ t) ∧
    (∀ e, cfg.hookErr (.beforeTrainIter idx b) = some e →
      (EpochBasedTrainLoop.run_iter cfg idx b s).2 = some e) ∧
    (∀ e, cfg.hookErr (.beforeTrainIter idx b) = none →
      cfg.model b true = .error e →
      (EpochBasedTrainLoop.run_iter cfg idx b s).2 = some e) ∧
    (∃ k, k ≤ l.length ∧
      (EpochBasedTrainLoop.run_iters cfg idx0 l s).1.iter = s.iter + k ∧
      ((EpochBasedTrainLoop.run_iters cfg idx0 l s).2 = none →
        k = l.length)) := by
  refine ⟨EpochBasedTrainLoop.eb_run_iter_iter_none cfg idx b s,
    EpochBasedTrainLoop.eb_run_iter_iter_some cfg idx b s,
    IterBasedTrainLoop.ib_run_iter_iter_none cfg b s,
    IterBasedTrainLoop.ib_run_iter_iter_some cfg b s,
    EpochBasedTrainLoop.eb_run_iter_hub cfg idx b s,
    IterBasedTrainLoop.ib_run_iter_hub cfg b s, ?_, ?_,
    EpochBasedTrainLoop.eb_run_iters_completed cfg l idx0 s⟩
  · intro e he
    rcases EpochBasedTrainLoop.eb_run_iter_spec cfg idx b s with
      ⟨e', h1, heq⟩ | ⟨e', h1, h2, heq⟩ | ⟨o, e', h1, h2, h3, heq⟩ |
      ⟨o, h1, h2, h3, heq⟩
    · rw [h1] at he
      injection he with he
      rw [heq, he]
    · rw [h1] at he; exact absurd he (by simp)
    · rw [h1] at he; exact absurd he (by simp)
    · rw [h1] at he; exact absurd he (by simp)
  · intro e hn he
    rcases EpochBasedTrainLoop.eb_run_iter_spec cfg idx b s with
      ⟨e', h1, heq⟩ | ⟨e', h1, h2, heq⟩ | ⟨o, e', h1, h2, h3, heq⟩ |
      ⟨o, h1, h2, h3, heq⟩
    · rw [h1] at hn; exact absurd hn (by simp)
    · rw [he] at h2
      injection h2 with h2
      rw [heq, h2]
    · rw [he] at h2; exact absurd h2 (by simp)
    · rw [he] at h2; exact absurd h2 (by simp)

/-- C8: after the batch pass, `ValLoop.run`/`TestLoop.run` call the
evaluator's `evaluate` exactly once, with the underlying dataset's
sample count (not the batch count), and record every entry of the
returned metric mapping exactly once under `val/<name>` resp.
`test/<name>`. -/
theorem c8_evaluate_once_and_log (cfg : Cfg B O V) (vcfg : ValCfg B O V)
    (tcfg : TestCfg B O V) (p : B → O) (s : Runner B O V)
    (hH : ∀ h, cfg.hookErr h = none)
    (hm : ∀ b, cfg.model b false = Except.ok (p b)) :
    (ValLoop.run cfg vcfg s).1.evalCalls = s.evalCalls ++ [vcfg.datasetLen] ∧
    (ValLoop.run cfg vcfg s).1.messageHub = s.messageHub ++
      (vcfg.evaluate (s.evalAccum ++ processedPairs p vcfg.batches)
          vcfg.datasetLen).map (fun kv => ("val/" ++ kv.1, kv.2)) ∧
    (TestLoop.run cfg tcfg s).1.evalCalls = s.evalCalls ++ [tcfg.datasetLen] ∧
    (TestLoop.run cfg tcfg s).1.messageHub = s.messageHub ++
      (tcfg.evaluate (s.evalAccum ++ processedPairs p tcfg.batches)
          tcfg.datasetLen).map (fun kv => ("test/" ++ kv.1, kv.2)) := by
  rw [ValLoop.val_run_eq cfg vcfg p hH hm s, TestLoop.test_run_eq cfg tcfg p hH hm s]
  exact ⟨rfl, rfl, rfl, rfl⟩

/-- A concrete configuration for exercising a validation iteration:
the model maps batch `b` to `b + 1`, hooks never raise. -/
def c9cfg : Cfg Nat Nat Nat :=
  { model := fun b _ => Except.ok (b + 1),
    logVars := fun o => [("loss", o)],
    hookErr := fun _ => none,
    valLoop := none }

/-- A fresh runner state. -/
def c9runner : Runner Nat Nat Nat :=
  { epoch := 0, iter := 0, curDataloader := none, outputs := none,
    messageHub := [], trace := [], evalAccum := [], evalCalls := [],
    trainingMode := false }

/-- C9 counterexample: in a `ValLoop.run_iter` on batch `0` the
computation unit produces `1` (as the `after_val_iter` dispatch
records), yet the runner's stored `outputs` field is not updated to
`some 1` — the claim that after every computation-unit invocation in
any of the four regimes the outputs stored on the context equal the
result just produced is false for the validation regime. -/
theorem c9_counterexample :
    (ValLoop.run_iter c9cfg 0 0 c9runner).1.outputs ≠ some 1 ∧
    (ValLoop.run_iter c9cfg 0 0 c9runner).1.trace =
      [HookCall.beforeValIter 0 0, HookCall.afterValIter 0 0 1] ∧
    (ValLoop.run_iter c9cfg 0 0 c9runner).2 = none := by
  refine ⟨by decide, by decide, by decide⟩

/-- C9 amended: in the training regimes every completed iteration
stores the just-produced result on the context and passes it to
`after_train_iter`; in the validation and test regimes the result is
passed to the corresponding `after_*_iter` hook as its `outputs`
argument but the context's stored outputs field is left unchanged. -/
theorem c9_amended_outputs_visibility (cfg : Cfg B O V) (idx : Nat) (b : B)
    (o o2 : O) (s : Runner B O V)
    (hH : ∀ h, cfg.hookErr h = none)
    (hmt : cfg.model b true = Except.ok o)
    (hmf : cfg.model b false = Except.ok o2) :
    ((EpochBasedTrainLoop.run_iter cfg idx b s).1.outputs = some o ∧
      (EpochBasedTrainLoop.run_iter cfg idx b s).1.trace =
        s.trace ++ [.beforeTrainIter idx b, .afterTrainIter idx b o]) ∧
    ((IterBasedTrainLoop.run_iter cfg b s).1.outputs = some o ∧
      (IterBasedTrainLoop.run_iter cfg b s).1.trace =
        s.trace ++ [.beforeTrainIter s.iter b, .afterTrainIter s.iter b o]) ∧
    ((ValLoop.run_iter cfg idx b s).1.outputs = s.outputs ∧
      (ValLoop.run_iter cfg idx b s).1.trace =
        s.trace ++ [.beforeValIter idx b, .afterValIter idx b o2]) ∧
    ((TestLoop.run_iter cfg idx b s).1.outputs = s.outputs ∧
      (TestLoop.run_iter cfg idx b s).1.trace =
        s.trace ++ [.beforeTestIter idx b, .afterTestIter idx b o2]) := by
  rw [EpochBasedTrainLoop.eb_run_iter_eq cfg idx b o hH hmt s,
    IterBasedTrainLoop.ib_run_iter_eq cfg b o hH hmt s,
    ValLoop.val_run_iter_eq cfg idx b o2 hH hmf s,
    TestLoop.test_run_iter_eq cfg idx b o2 hH hmf s]
  exact ⟨⟨rfl, rfl⟩, ⟨rfl, rfl⟩, ⟨rfl, rfl⟩, ⟨rfl, rfl⟩⟩

/-- C10: when a nested validation run occurs (the interval is positive
and no larger than the training horizon, so at least one trigger
fires), a completed train-loop run of either kind ends with
`runner.cur_dataloader` still pointing at the validation loop's
dataloader: each train loop writes the pointer once at the start of
`run()` and never restores it after the nested invocation. -/
theorem c10_dataloader_pointer_not_restored (cfgE cfgI : Cfg B O V)
    (ecfg : EpochCfg B) (icfg : IterCfg B) (vlE vlI : ValCfg B O V)
    (sE sI : Runner B O V)
    (hvlE : cfgE.valLoop = some vlE) (hE0 : sE.epoch = 0)
    (hiE : 0 < vlE.interval) (hleE : vlE.interval ≤ ecfg.max_epochs)
    (hokE : (EpochBasedTrainLoop.run cfgE ecfg sE).2 = none)
    (hvlI : cfgI.valLoop = some vlI) (hI0 : sI.iter = 0)
    (hiI : 0 < vlI.interval) (hleI : vlI.interval ≤ icfg.max_iters)
    (hokI : (IterBasedTrainLoop.run cfgI icfg sI).2 = none) :
    (EpochBasedTrainLoop.run cfgE ecfg sE).1.curDataloader = some vlE.dlId ∧
    (IterBasedTrainLoop.run cfgI icfg sI).1.curDataloader = some vlI.dlId := by
  constructor
  · unfold EpochBasedTrainLoop.run at hokE ⊢
    rcases h1 : cfgE.hookErr HookCall.beforeTrain with _ | e1
    case some => simp [callHook, h1] at hokE
    simp only [callHook, h1, andThen_ok] at hokE ⊢
    rcases hlf : EpochBasedTrainLoop.loopFuel cfgE ecfg
        (ecfg.max_epochs -
          ({ sE with curDataloader := some ecfg.dlId,
                     trace := sE.trace ++ [HookCall.beforeTrain] } :
            Runner B O V).epoch)
        { sE with curDataloader := some ecfg.dlId,
                  trace := sE.trace ++ [HookCall.beforeTrain] } with ⟨s2, e2⟩
    rw [hlf] at hokE
    cases e2 with
    | some e2 => simp at hokE
    | none =>
      have hcd := EpochBasedTrainLoop.eb_loopFuel_curDL_trigger cfgE ecfg vlE hvlE
        (ecfg.max_epochs -
          ({ sE with curDataloader := some ecfg.dlId,
                     trace := sE.trace ++ [HookCall.beforeTrain] } :
            Runner B O V).epoch)
        { sE with curDataloader := some ecfg.dlId,
                  trace := sE.trace ++ [HookCall.beforeTrain] }
        (by rw [hlf]) (by simp [hE0])
        ⟨vlE.interval, by simp [hE0]; omega, hleE, Nat.mod_self _⟩
      rw [hlf] at hcd
      simp only [Prod.fst] at hcd
      simp only [andThen_ok, callHook]
      simpa using hcd
  · unfold IterBasedTrainLoop.run at hokI ⊢
    rcases h1 : cfgI.hookErr HookCall.beforeTrain with _ | e1
    case some => simp [callHook, h1] at hokI
    simp only [callHook, h1, andThen_ok] at hokI ⊢
    rcases h2 : cfgI.hookErr HookCall.beforeTrainEpoch with _ | e2
    case some => simp [callHook, h2] at hokI
    simp only [callHook, h2, andThen_ok] at hokI ⊢
    rcases hlf : IterBasedTrainLoop.loopFuel cfgI icfg
        (icfg.max_iters -
          ({ sI with curDataloader := some icfg.dlId,
                     trace := (sI.trace ++ [HookCall.beforeTrain]) ++
                       [HookCall.beforeTrainEpoch] } : Runner B O V).iter)
        icfg.batches
        { sI with curDataloader := some icfg.dlId,
                  trace := (sI.trace ++ [HookCall.beforeTrain]) ++
                    [HookCall.beforeTrainEpoch] } with ⟨s2, e2⟩
    rw [hlf] at hokI
    cases e2 with
    | some e2 => simp at hokI
    | none =>
      have hcd := IterBasedTrainLoop.ib_loopFuel_curDL_trigger cfgI icfg vlI hvlI
        (icfg.max_iters -
          ({ sI with curDataloader := some icfg.dlId,
                     trace := (sI.trace ++ [HookCall.beforeTrain]) ++
                       [HookCall.beforeTrainEpoch] } : Runner B O V).iter)
        icfg.batches
        { sI with curDataloader := some icfg.dlId,
                  trace := (sI.trace ++ [HookCall.beforeTrain]) ++
                    [HookCall.beforeTrainEpoch] }
        (by rw [hlf]) (by simp [hI0])
        ⟨vlI.interval, by simp [hI0]; omega, hleI, Nat.mod_self _⟩
      rw [hlf] at hcd
      simp only [Prod.fst] at hcd
      simp only [andThen_ok, callHook]
      rcases h3 : cfgI.hookErr HookCall.afterTrainEpoch with _ | e3 <;>
        simp only [h3, andThen_ok, andThen_err, callHook] <;>
        simpa using hcd

/-! Concrete configurations for exercising the theorems. -/

/-- A computation unit mapping batch `b` to `b + 1` in both modes. -/
def wModel : Nat → Bool → Except Err Nat := fun b _ => Except.ok (b + 1)

/-- A validation loop over one batch, dataset size 9, interval 1. -/
def wVal : ValCfg Nat Nat Nat :=
  { dlId := 7, batches := [5], datasetLen := 9,
    evaluate := fun acc n => [("acc", acc.length + n)], interval := 1 }

/-- A runner configuration with a validation loop and benign hooks. -/
def wCfg : Cfg Nat Nat Nat :=
  { model := wModel, logVars := fun o => [("loss", o)],
    hookErr := fun _ => none, valLoop := some wVal }

/-- A runner configuration without a validation loop. -/
def wCfgNoVal : Cfg Nat Nat Nat :=
  { model := wModel, logVars := fun o => [("loss", o)],
    hookErr := fun _ => none, valLoop := none }

/-- A runner configuration whose computation unit always raises. -/
def wCfgFail : Cfg Nat Nat Nat :=
  { model := fun _ _ => Except.error Err.modelFailure,
    logVars := fun o => [("loss", o)],
    hookErr := fun _ => none, valLoop := none }

/-- An epoch-based loop: 2 epochs over 2 batches. -/
def wEpoch : EpochCfg Nat := { dlId := 3, batches := [10, 20], max_epochs := 2 }

/-- An iteration-based loop: 5 iterations over 5 batches. -/
def wIter5 : IterCfg Nat :=
  { dlId := 4, batches := [0, 1, 2, 3, 4], max_iters := 5 }

/-- An iteration-based loop demanding more iterations than batches. -/
def wIterEx : IterCfg Nat := { dlId := 4, batches := [0, 1], max_iters := 4 }

/-- A test loop over 3 batches with dataset size 11. -/
def wTest : TestCfg Nat Nat Nat :=
  { dlId := 8, batches := [1, 2, 3], datasetLen := 11,
    evaluate := fun acc n => [("top1", acc.length + n)] }

/-- A fresh runner state. -/
def wRunner : Runner Nat Nat Nat :=
  { epoch := 0, iter := 0, curDataloader := none, outputs := none,
    messageHub := [], trace := [], evalAccum := [], evalCalls := [],
    trainingMode := false }

theorem c1_epoch_run_final_counters_witness :
    (EpochBasedTrainLoop.run wCfg wEpoch wRunner).1.epoch = wEpoch.max_epochs ∧
    (EpochBasedTrainLoop.run wCfg wEpoch wRunner).1.iter =
      wEpoch.max_epochs * wEpoch.batches.length ∧
    (EpochBasedTrainLoop.run wCfg wEpoch wRunner).1.iter =
      EpochBasedTrainLoop.max_iters wEpoch :=
  c1_epoch_run_final_counters wCfg wEpoch wRunner rfl rfl (by rfl)

theorem c2_epoch_hook_sequence_witness :
    nameTrace (EpochBasedTrainLoop.run wCfg wEpoch wRunner).1 =
      nameTrace wRunner ++ "before_train" ::
        (expectedSeg wEpoch.batches.length wVal.batches.length wVal.interval
            wEpoch.max_epochs wEpoch.max_epochs 0 ++ ["after_train"]) ∧
    (wEpoch.max_epochs < wVal.interval →
      expectedSeg wEpoch.batches.length wVal.batches.length wVal.interval
          wEpoch.max_epochs wEpoch.max_epochs 0 =
        pureSeg wEpoch.batches.length wEpoch.max_epochs wEpoch.max_epochs 0) ∧
    (wVal.interval = 1 →
      expectedSeg wEpoch.batches.length wVal.batches.length wVal.interval
          wEpoch.max_epochs wEpoch.max_epochs 0 =
        everySeg wEpoch.batches.length wVal.batches.length wEpoch.max_epochs
          wEpoch.max_epochs 0) :=
  c2_epoch_hook_sequence wCfg wEpoch wVal rfl wRunner rfl (by rfl)

theorem c3_counters_monotone_witness :
    (wRunner.epoch ≤ (EpochBasedTrainLoop.run wCfg wEpoch wRunner).1.epoch ∧
      wRunner.iter ≤ (EpochBasedTrainLoop.run wCfg wEpoch wRunner).1.iter) ∧
    (EpochBasedTrainLoop.run_iter wCfg 0 5 wRunner).1.iter =
      wRunner.iter + 1 ∧
    (IterBasedTrainLoop.run_iter wCfg 5 wRunner).1.iter = wRunner.iter + 1 :=
  ⟨(c3_counters_monotone wCfg wEpoch wIter5 wVal wTest 0 5 wRunner).1,
    (c3_counters_monotone wCfg wEpoch wIter5 wVal wTest 0 5
        wRunner).2.2.2.2.1 (by rfl),
    (c3_counters_monotone wCfg wEpoch wIter5 wVal wTest 0 5
        wRunner).2.2.2.2.2 (by rfl)⟩

theorem c5_iter_run_five_batches_witness :
    (IterBasedTrainLoop.run wCfgNoVal wIter5 wRunner).2 = none ∧
    (IterBasedTrainLoop.run wCfgNoVal wIter5 wRunner).1.iter = 5 ∧
    (IterBasedTrainLoop.run wCfgNoVal wIter5 wRunner).1.trace =
      wRunner.trace ++ HookCall.beforeTrain :: HookCall.beforeTrainEpoch ::
        (ibPairs (fun b => b + 1) 0 wIter5.batches ++
          [HookCall.afterTrainEpoch, HookCall.afterTrain]) ∧
    (ibPairs (fun b => b + 1) 0 wIter5.batches).filterMap beforeIterIdx =
      [0, 1, 2, 3, 4] ∧
    (ibPairs (fun b => b + 1) 0 wIter5.batches).filterMap afterIterIdx =
      [0, 1, 2, 3, 4] :=
  c5_iter_run_five_batches wCfgNoVal wIter5 (fun b => b + 1) wRunner
    (fun _ => rfl) (fun _ => rfl) rfl rfl rfl rfl

theorem c6_iter_run_exhaustion_witness :
    (IterBasedTrainLoop.run wCfgNoVal wIterEx wRunner).2 =
      some Err.stopIteration ∧
    (IterBasedTrainLoop.run wCfgNoVal wIterEx wRunner).1.iter =
      wIterEx.batches.length :=
  c6_iter_run_exhaustion wCfgNoVal wIterEx (fun b _ => b + 1) wRunner
    (fun _ => rfl) (fun _ _ => rfl)
    (fun vl hv => by simp [wCfgNoVal] at hv) (by decide) rfl

theorem c7_failure_semantics_witness :
    (EpochBasedTrainLoop.run_iter wCfg 0 5 wRunner).1.iter =
      wRunner.iter + 1 ∧
    (EpochBasedTrainLoop.run_iter wCfgFail 0 5 wRunner).1.iter =
      wRunner.iter ∧
    (EpochBasedTrainLoop.run_iter wCfgFail 0 5 wRunner).2 =
      some Err.modelFailure :=
  ⟨(c7_failure_semantics wCfg 0 0 5 [1, 2] wRunner).1 (by rfl),
    (c7_failure_semantics wCfgFail 0 0 5 [1, 2] wRunner).2.1 (by decide),
    (c7_failure_semantics wCfgFail 0 0 5 [1, 2] wRunner).2.2.2.2.2.2.2.1
      Err.modelFailure rfl rfl⟩

theorem c8_evaluate_once_and_log_witness :
    (ValLoop.run wCfg wVal wRunner).1.evalCalls =
      wRunner.evalCalls ++ [wVal.datasetLen] ∧
    (ValLoop.run wCfg wVal wRunner).1.messageHub = wRunner.messageHub ++
      (wVal.evaluate (wRunner.evalAccum ++
          processedPairs (fun b => b + 1) wVal.batches)
        wVal.datasetLen).map (fun kv => ("val/" ++ kv.1, kv.2)) ∧
    (TestLoop.run wCfg wTest wRunner).1.evalCalls =
      wRunner.evalCalls ++ [wTest.datasetLen] ∧
    (TestLoop.run wCfg wTest wRunner).1.messageHub = wRunner.messageHub ++
      (wTest.evaluate (wRunner.evalAccum ++
          processedPairs (fun b => b + 1) wTest.batches)
        wTest.datasetLen).map (fun kv => ("test/" ++ kv.1, kv.2)) :=
  c8_evaluate_once_and_log wCfg wVal wTest (fun b => b + 1) wRunner
    (fun _ => rfl) (fun _ => rfl)

theorem c9_amended_outputs_visibility_witness :
    ((EpochBasedTrainLoop.run_iter wCfg 0 5 wRunner).1.outputs = some 6 ∧
      (EpochBasedTrainLoop.run_iter wCfg 0 5 wRunner).1.trace =
        wRunner.trace ++
          [.beforeTrainIter 0 5, .afterTrainIter 0 5 6]) ∧
    ((IterBasedTrainLoop.run_iter wCfg 5 wRunner).1.outputs = some 6 ∧
      (IterBasedTrainLoop.run_iter wCfg 5 wRunner).1.trace =
        wRunner.trace ++
          [.beforeTrainIter wRunner.iter 5, .afterTrainIter wRunner.iter 5 6]) ∧
    ((ValLoop.run_iter wCfg 0 5 wRunner).1.outputs = wRunner.outputs ∧
      (ValLoop.run_iter wCfg 0 5 wRunner).1.trace =
        wRunner.trace ++ [.beforeValIter 0 5, .afterValIter 0 5 6]) ∧
    ((TestLoop.run_iter wCfg 0 5 wRunner).1.outputs = wRunner.outputs ∧
      (TestLoop.run_iter wCfg 0 5 wRunner).1.trace =
        wRunner.trace ++ [.beforeTestIter 0 5, .afterTestIter 0 5 6]) :=
  c9_amended_outputs_visibility wCfg 0 5 6 6 wRunner (fun _ => rfl) rfl rfl

theorem c10_dataloader_pointer_not_restored_witness :
    (EpochBasedTrainLoop.run wCfg wEpoch wRunner).1.curDataloader =
      some wVal.dlId ∧
    (IterBasedTrainLoop.run wCfg wIter5 wRunner).1.curDataloader =
      some wVal.dlId :=
  c10_dataloader_pointer_not_restored wCfg wCfg wEpoch wIter5 wVal wVal
    wRunner wRunner rfl rfl (by decide) (by decide) (by rfl)
    rfl rfl (by decide) (by decide) (by rfl)

end Loops
